import Mathlib

/-!
Verification of the EKF-SLAM filter with unknown correspondences
(src/EKF_SLAM/EKF_SLAM_unknown_correspondences.py), as a shallow embedding
of the class ExtendedKalmanFilterSLAM over exact real arithmetic.

The state vector has length 3 + 2 L (robot pose, then one (x, y) pair per
landmark slot); slot i (1 ≤ i ≤ L) is stored at indices 2 i + 1, 2 i + 2.
Numpy exceptions (LinAlgError from np.linalg.inv on a singular matrix, the
AttributeError raised when measurement_update reads self.H before any
association has set it) are modelled with Except.
-/

open scoped Matrix

namespace EKFSLAM

noncomputable section

/-- Dimension of the joint state vector: 3 pose components plus 2 per landmark. -/
abbrev dim (L : ℕ) : ℕ := 3 + 2 * L

/-- A joint state vector (robot pose and landmark estimates). -/
abbrev Vec (L : ℕ) := Fin (dim L) → ℝ

/-- A covariance matrix over the joint state. -/
abbrev Cov (L : ℕ) := Matrix (Fin (dim L)) (Fin (dim L)) ℝ

/-- Index of the robot x coordinate in the state vector. -/
def pX (L : ℕ) : Fin (dim L) := ⟨0, by simp only [dim]; omega⟩

/-- Index of the robot y coordinate in the state vector. -/
def pY (L : ℕ) : Fin (dim L) := ⟨1, by simp only [dim]; omega⟩

/-- Index of the robot heading θ in the state vector. -/
def pT (L : ℕ) : Fin (dim L) := ⟨2, by simp only [dim]; omega⟩

/-- Index of landmark slot i's x coordinate (states[2 i + 1]). -/
def lX {L : ℕ} (i : Fin (L + 1)) : Fin (dim L) := ⟨2 * i.1 + 1, by have := i.isLt; simp only [dim]; omega⟩

/-- Index of landmark slot i's y coordinate (states[2 i + 2]). -/
def lY {L : ℕ} (i : Fin (L + 1)) : Fin (dim L) := ⟨2 * i.1 + 2, by have := i.isLt; simp only [dim]; omega⟩

/-- Two-argument arctangent with the np.arctan2 convention (y first). -/
def atan2 (y x : ℝ) : ℝ :=
  if 0 < x then Real.arctan (y / x)
  else if x < 0 then
    (if 0 ≤ y then Real.arctan (y / x) + Real.pi else Real.arctan (y / x) - Real.pi)
  else (if 0 < y then Real.pi / 2 else if y < 0 then -(Real.pi / 2) else 0)

/-- The values data_association retains for the correction step (the attributes
self.H, self.Psi, self.difference).  The slot field records which loop
iteration produced them; it is specification bookkeeping only. -/
structure AssocData (L : ℕ) where
  slot : Fin (L + 1)
  H : Matrix (Fin 3) (Fin (dim L)) ℝ
  Psi : Matrix (Fin 3) (Fin 3) ℝ
  difference : Fin 3 → ℝ

/-- Fixed configuration: process noise R, measurement noise Q and the
barcode-to-slot lookup table self.landmark_indexes (an external dictionary;
none means the subject is not a landmark). -/
structure Config (L : ℕ) where
  R : Matrix (Fin 3) (Fin 3) ℝ
  Q : Matrix (Fin 3) (Fin 3) ℝ
  landmark_indexes : ℝ → Option (Fin (L + 1))

/-- Numpy exceptions that can escape an update: LinAlgError from inverting a
singular matrix, AttributeError from reading self.H before it was ever set. -/
inductive FilterError where
  | linAlg
  | attrMissing

/-- The mutable attributes of ExtendedKalmanFilterSLAM touched by the filter
core: the history of state vectors, their timestamps, the last applied
timestamp, the covariance, the observed flags (index 0 unused) and the
persisted association attributes. -/
structure FilterState (L : ℕ) where
  states : List (Vec L)
  stamps : List ℝ
  last_timestamp : ℝ
  sigma : Cov L
  observed : Fin (L + 1) → Bool
  assoc : Option (AssocData L)

/-- The current state vector self.states[-1]. -/
def lastState {L : ℕ} (st : FilterState L) : Vec L := st.states.getLastD 0

/-- Motion Jacobian G: identity except G[0][2] = -v Δt sin θ and
G[1][2] = v Δt cos θ. -/
def motionG (L : ℕ) (v dt th : ℝ) : Cov L :=
  fun p q =>
    if p = pX L ∧ q = pT L then -v * dt * Real.sin th
    else if p = pY L ∧ q = pT L then v * dt * Real.cos th
    else (1 : Cov L) p q

/-- The process-noise addition performed by motion_update:
sigma[0][0] += R[0][0]; sigma[1][1] += R[1][1]; sigma[2][2] += R[2][2]
(only the three pose diagonal entries are touched). -/
def addPoseNoise {L : ℕ} (R : Matrix (Fin 3) (Fin 3) ℝ) (S : Cov L) : Cov L :=
  fun p q =>
    if h : p = q ∧ p.1 < 3 then S p q + R ⟨p.1, h.2⟩ ⟨p.1, h.2⟩ else S p q

/-- The predicted state vector appended by motion_update: pose moved by the
velocity model, heading wrapped by at most one ±2π correction, landmark
components copied unchanged. -/
def motionNewState {L : ℕ} (st : FilterState L) (t v w : ℝ) : Vec L :=
  let dt := t - st.last_timestamp
  let s := lastState st
  let xt := s (pX L) + v * Real.cos (s (pT L)) * dt
  let yt := s (pY L) + v * Real.sin (s (pT L)) * dt
  let thraw := s (pT L) + w * dt
  let tht :=
    if thraw > Real.pi then thraw - 2 * Real.pi
    else if thraw < -Real.pi then thraw + 2 * Real.pi
    else thraw
  Function.update (Function.update (Function.update s (pX L) xt) (pY L) yt) (pT L) tht

/-- motion_update (prediction step).  Skips entirely when Δt < 0.001. -/
def motionUpdate {L : ℕ} (cfg : Config L) (st : FilterState L) (t v w : ℝ) :
    FilterState L :=
  if t - st.last_timestamp < 0.001 then st
  else
    let G := motionG L v (t - st.last_timestamp) (lastState st (pT L))
    { st with
      states := st.states ++ [motionNewState st t v w],
      last_timestamp := t,
      stamps := st.stamps ++ [t],
      sigma := addPoseNoise cfg.R (G * st.sigma * Gᵀ) }

/-- Inverse observation x: x_t + r cos(b + θ). -/
def daXe {L : ℕ} (st : FilterState L) (r b : ℝ) : ℝ :=
  lastState st (pX L) + r * Real.cos (b + lastState st (pT L))

/-- Inverse observation y: y_t + r sin(b + θ). -/
def daYe {L : ℕ} (st : FilterState L) (r b : ℝ) : ℝ :=
  lastState st (pY L) + r * Real.sin (b + lastState st (pT L))

/-- First-sight landmark initialization inside data_association: when the slot
is not yet observed, set its flag and overwrite, in place, the two landmark
coordinates of the most recent history entry with the inverse-observation
result (self.states[-1][2 idx + 1] = ...; self.states[-1][2 idx + 2] = ...). -/
def daStep1 {L : ℕ} (st : FilterState L) (idx : Fin (L + 1)) (r b : ℝ) :
    FilterState L :=
  if st.observed idx then st
  else
    { st with
      observed := Function.update st.observed idx true,
      states := st.states.dropLast ++
        [Function.update (Function.update (lastState st) (lX idx) (daXe st r b))
          (lY idx) (daYe st r b)] }

/-- The per-measurement snapshot read by the association loop: the pose
captured before first-sight initialization, the (possibly just-initialized)
current state vector, the covariance, Q and the raw measurement. -/
structure ObsCtx (L : ℕ) where
  x : ℝ
  y : ℝ
  th : ℝ
  s : Vec L
  sig : Cov L
  Q : Matrix (Fin 3) (Fin 3) ℝ
  r : ℝ
  b : ℝ

/-- The snapshot data_association builds for a measurement on slot idx. -/
def daCtx {L : ℕ} (cfg : Config L) (st : FilterState L) (idx : Fin (L + 1)) (r b : ℝ) :
    ObsCtx L :=
  { x := lastState st (pX L), y := lastState st (pY L), th := lastState st (pT L),
    s := lastState (daStep1 st idx r b),
    sig := st.sigma, Q := cfg.Q, r := r, b := b }

/-- delta_x = x_l - x_t for slot i. -/
def deltaX {L : ℕ} (c : ObsCtx L) (i : Fin (L + 1)) : ℝ := c.s (lX i) - c.x

/-- delta_y = y_l - y_t for slot i. -/
def deltaY {L : ℕ} (c : ObsCtx L) (i : Fin (L + 1)) : ℝ := c.s (lY i) - c.y

/-- q = delta_x² + delta_y². -/
def qVal {L : ℕ} (c : ObsCtx L) (i : Fin (L + 1)) : ℝ := deltaX c i ^ 2 + deltaY c i ^ 2

/-- Expected range √q for slot i. -/
def rangeExp {L : ℕ} (c : ObsCtx L) (i : Fin (L + 1)) : ℝ := Real.sqrt (qVal c i)

/-- Expected bearing arctan2(delta_y, delta_x) - θ for slot i. -/
def bearingExp {L : ℕ} (c : ObsCtx L) (i : Fin (L + 1)) : ℝ :=
  atan2 (deltaY c i) (deltaX c i) - c.th

/-- The 5 × (3+2L) selection matrix F_x for slot i (rows pick x, y, θ and the
slot's two coordinates). -/
def Fx {L : ℕ} (i : Fin (L + 1)) : Matrix (Fin 5) (Fin (dim L)) ℝ :=
  fun p q =>
    if p = 0 ∧ q = pX L then 1
    else if p = 1 ∧ q = pY L then 1
    else if p = 2 ∧ q = pT L then 1
    else if p = 3 ∧ q = lX i then 1
    else if p = 4 ∧ q = lY i then 1
    else 0

/-- The 3 × 5 low-dimensional measurement Jacobian H_low for slot i. -/
def Hlow {L : ℕ} (c : ObsCtx L) (i : Fin (L + 1)) : Matrix (Fin 3) (Fin 5) ℝ :=
  ![![-deltaX c i / Real.sqrt (qVal c i), -deltaY c i / Real.sqrt (qVal c i), 0,
      deltaX c i / Real.sqrt (qVal c i), deltaY c i / Real.sqrt (qVal c i)],
    ![deltaY c i / qVal c i, -deltaX c i / qVal c i, -1,
      -deltaY c i / qVal c i, deltaX c i / qVal c i],
    ![0, 0, 0, 0, 0]]

/-- Full observation Jacobian H = H_low · F_x for slot i. -/
def slotH {L : ℕ} (c : ObsCtx L) (i : Fin (L + 1)) : Matrix (Fin 3) (Fin (dim L)) ℝ :=
  Hlow c i * Fx i

/-- Innovation covariance Ψ = H Σ Hᵀ + Q for slot i. -/
def slotPsi {L : ℕ} (c : ObsCtx L) (i : Fin (L + 1)) : Matrix (Fin 3) (Fin 3) ℝ :=
  slotH c i * c.sig * (slotH c i)ᵀ + c.Q

/-- Innovation vector d = (r - r̂, b - b̂, 0) for slot i. -/
def slotDiff {L : ℕ} (c : ObsCtx L) (i : Fin (L + 1)) : Fin 3 → ℝ :=
  ![c.r - rangeExp c i, c.b - bearingExp c i, 0]

/-- Mahalanobis distance π = dᵀ Ψ⁻¹ d for slot i. -/
def slotPi {L : ℕ} (c : ObsCtx L) (i : Fin (L + 1)) : ℝ :=
  slotDiff c i ⬝ᵥ (slotPsi c i)⁻¹.mulVec (slotDiff c i)

/-- The association attributes recorded when the loop improves on slot i. -/
def mkData {L : ℕ} (c : ObsCtx L) (i : Fin (L + 1)) : AssocData L :=
  { slot := i, H := slotH c i, Psi := slotPsi c i, difference := slotDiff c i }

/-- The loop indices range(1, len(landmark_indexes) + 1), i.e. slots 1..L. -/
def slotList (L : ℕ) : List (Fin (L + 1)) := (List.finRange (L + 1)).drop 1

/-- The data-association scoring loop: skip unobserved slots, invert Ψ
(raising LinAlgError when exactly singular), record slot data whenever its
Mahalanobis distance strictly improves on the running minimum (which starts
at 1e16); acc holds the previously persisted association attributes. -/
def assocFold {L : ℕ} (c : ObsCtx L) (obs : Fin (L + 1) → Bool) :
    List (Fin (L + 1)) → Option (AssocData L) → ℝ →
      Except FilterError (Option (AssocData L))
  | [], acc, _ => .ok acc
  | i :: rest, acc, minD =>
    if obs i then
      if (slotPsi c i).det = 0 then .error .linAlg
      else if slotPi c i < minD then
        assocFold c obs rest (some (mkData c i)) (slotPi c i)
      else assocFold c obs rest acc minD
    else assocFold c obs rest acc minD

/-- data_association: no-op for a subject that is not a landmark; otherwise
first-sight initialization followed by the scoring loop over slots 1..L. -/
def dataAssociation {L : ℕ} (cfg : Config L) (st : FilterState L)
    (sid r b : ℝ) : Except FilterError (FilterState L) :=
  match cfg.landmark_indexes sid with
  | none => .ok st
  | some idx =>
    let st1 := daStep1 st idx r b
    match assocFold (daCtx cfg st idx r b) st1.observed (slotList L) st.assoc 1e16 with
    | .error e => .error e
    | .ok a => .ok { st1 with assoc := a }

/-- Kalman gain K = Σ Hᵀ Ψ⁻¹. -/
def kalmanGain {L : ℕ} (st : FilterState L) (a : AssocData L) :
    Matrix (Fin (dim L)) (Fin 3) ℝ :=
  st.sigma * (a.H)ᵀ * (a.Psi)⁻¹

/-- measurement_update (correction step): no-op for a non-landmark subject;
reads the persisted association attributes (AttributeError if never set),
inverts Ψ again, appends states[-1] + K d and replaces the covariance by
(I - K H) Σ. -/
def measurementUpdate {L : ℕ} (cfg : Config L) (st : FilterState L)
    (t sid : ℝ) : Except FilterError (FilterState L) :=
  match cfg.landmark_indexes sid with
  | none => .ok st
  | some _ =>
    match st.assoc with
    | none => .error .attrMissing
    | some a =>
      if (a.Psi).det = 0 then .error .linAlg
      else
        .ok { st with
          states := st.states ++ [lastState st + (kalmanGain st a).mulVec a.difference],
          last_timestamp := t,
          stamps := st.stamps ++ [t],
          sigma := (1 - kalmanGain st a * a.H) * st.sigma }

/-- A typed event of the time-ordered input stream: an odometry row
(subject -1) or a measurement row. -/
inductive Event where
  | motion (t v w : ℝ)
  | meas (t sid r b : ℝ)

/-- The per-event dispatch of the constructor's loop: motion events go to
motion_update, measurement events to data_association then
measurement_update. -/
def processEvent {L : ℕ} (cfg : Config L) (st : FilterState L) :
    Event → Except FilterError (FilterState L)
  | .motion t v w => .ok (motionUpdate cfg st t v w)
  | .meas t sid r b =>
    match dataAssociation cfg st sid r b with
    | .error e => .error e
    | .ok st1 => measurementUpdate cfg st1 t sid

/-- The event loop: strictly sequential; an uncaught exception aborts the run
and discards all remaining events. -/
def processEvents {L : ℕ} (cfg : Config L) :
    List Event → FilterState L → Except FilterError (FilterState L)
  | [], st => .ok st
  | e :: rest, st =>
    match processEvent cfg st e with
    | .error err => .error err
    | .ok st1 => processEvents cfg rest st1

/-- initialization: the first ground-truth pose becomes the single history
entry, stamps holds its timestamp, sigma is 1e-6 everywhere except 1e6 on the
landmark diagonal, no landmark observed. -/
def initFilter (L : ℕ) (x0 y0 th0 t0 : ℝ) : FilterState L :=
  { states := [Function.update (Function.update (Function.update (0 : Vec L) (pX L) x0)
      (pY L) y0) (pT L) th0],
    stamps := [t0],
    last_timestamp := t0,
    sigma := fun p q => if p = q ∧ 3 ≤ p.1 then 1e6 else 1e-6,
    observed := fun _ => false,
    assoc := none }

/-- Concrete configuration for the concrete instantiations: identity noise
matrices, barcode 7 mapping to slot 1 of a single-landmark filter. -/
def cfgW : Config 1 :=
  { R := 1, Q := 1, landmark_indexes := fun v => if v = 7 then some 1 else none }

/-- Like cfgW but with a zero (hence singular) measurement-noise matrix Q. -/
def cfgZ : Config 1 :=
  { R := 1, Q := 0, landmark_indexes := fun v => if v = 7 then some 1 else none }

/-- Concrete state: pose at the origin, nothing observed, zero covariance. -/
def stW0 : FilterState 1 :=
  { states := [0], stamps := [0], last_timestamp := 0, sigma := 0,
    observed := fun _ => false, assoc := none }

/-- Concrete state vector: pose at the origin, landmark slot 1 at (1, 0). -/
def vObs : Vec 1 := fun k => if k.1 = 3 then 1 else 0

/-- Concrete state: landmark slot 1 observed at (1, 0), zero covariance. -/
def stObs : FilterState 1 :=
  { states := [vObs], stamps := [0], last_timestamp := 0, sigma := 0,
    observed := fun _ => true, assoc := none }

/-- The state data_association produces from stW0 for a first-sight
measurement (r, b) = (1, 0) on barcode 7. -/
def stW1 : FilterState 1 :=
  { daStep1 stW0 1 1 0 with assoc := some (mkData (daCtx cfgW stW0 1 1 0) 1) }

/-- Association attributes with invertible Ψ, for exercising the correction
step in isolation. -/
def aW : AssocData 1 := { slot := 1, H := 0, Psi := 1, difference := 0 }

/-- stObs with the persisted association attributes aW. -/
def stA : FilterState 1 := { stObs with assoc := some aW }

/-- Concrete configuration with symmetric but non-diagonal process noise R. -/
def cfgR : Config 1 :=
  { R := ![![0, 1, 0], ![1, 0, 0], ![0, 0, 0]], Q := 1,
    landmark_indexes := fun v => if v = 7 then some 1 else none }

/-- The bookkeeping invariant of the state store: one timestamp per history
entry and last_timestamp is the most recently recorded timestamp. -/
def StampInv {L : ℕ} (st : FilterState L) : Prop :=
  st.states.length = st.stamps.length ∧ st.stamps.getLast? = some st.last_timestamp

/-- Symmetry invariant: the covariance is symmetric, and so is any persisted
innovation covariance. -/
def SymState {L : ℕ} (st : FilterState L) : Prop :=
  (st.sigma)ᵀ = st.sigma ∧ ∀ a, st.assoc = some a → (a.Psi)ᵀ = a.Psi

/-- The state measurement_update produces from stA at timestamp 5. -/
def stA2 : FilterState 1 :=
  { stA with
    states := stA.states ++ [lastState stA + (kalmanGain stA aW).mulVec aW.difference],
    last_timestamp := 5,
    stamps := stA.stamps ++ [(5 : ℝ)],
    sigma := (1 - kalmanGain stA aW * aW.H) * stA.sigma }

end

/-! ### Basic lemmas about the association loop -/

theorem assocFold_nil {L : ℕ} (c : ObsCtx L) (obs : Fin (L + 1) → Bool)
    (acc : Option (AssocData L)) (m : ℝ) : assocFold c obs [] acc m = .ok acc := rfl

theorem assocFold_cons {L : ℕ} (c : ObsCtx L) (obs : Fin (L + 1) → Bool)
    (i : Fin (L + 1)) (rest : List (Fin (L + 1))) (acc : Option (AssocData L)) (m : ℝ) :
    assocFold c obs (i :: rest) acc m =
      if obs i then
        if (slotPsi c i).det = 0 then .error .linAlg
        else if slotPi c i < m then
          assocFold c obs rest (some (mkData c i)) (slotPi c i)
        else assocFold c obs rest acc m
      else assocFold c obs rest acc m := rfl

/-- If every observed slot in the remaining list scores at least the running
minimum, the loop keeps the previously recorded attributes. -/
theorem assocFold_stable {L : ℕ} (c : ObsCtx L) (obs : Fin (L + 1) → Bool) :
    ∀ (l : List (Fin (L + 1))) (acc : Option (AssocData L)) (m : ℝ),
      (∀ i ∈ l, obs i = true → (slotPsi c i).det ≠ 0) →
      (∀ i ∈ l, obs i = true → ¬ slotPi c i < m) →
      assocFold c obs l acc m = .ok acc := by
  intro l
  induction l with
  | nil => intro acc m _ _; rfl
  | cons i rest ih =>
    intro acc m hdet hge
    by_cases hobs : obs i = true
    · rw [assocFold_cons, if_pos hobs, if_neg (hdet i (List.mem_cons_self i rest) hobs),
        if_neg (hge i (List.mem_cons_self i rest) hobs)]
      exact ih acc m (fun k hk => hdet k (List.mem_cons_of_mem i hk))
        (fun k hk => hge k (List.mem_cons_of_mem i hk))
    · rw [assocFold_cons, if_neg hobs]
      exact ih acc m (fun k hk => hdet k (List.mem_cons_of_mem i hk))
        (fun k hk => hge k (List.mem_cons_of_mem i hk))

/-- If slot j is observed, scores strictly below the running minimum, scores
no worse than any observed slot of the (strictly ascending) list and strictly
better than every observed slot that comes earlier, the loop records exactly
slot j's attributes. -/
theorem assocFold_select {L : ℕ} (c : ObsCtx L) (obs : Fin (L + 1) → Bool)
    (j : Fin (L + 1)) (hobs : obs j = true) :
    ∀ (l : List (Fin (L + 1))) (acc : Option (AssocData L)) (m : ℝ),
      l.Pairwise (· < ·) → j ∈ l →
      (∀ i ∈ l, obs i = true → (slotPsi c i).det ≠ 0) →
      slotPi c j < m →
      (∀ i ∈ l, obs i = true → slotPi c j ≤ slotPi c i) →
      (∀ i ∈ l, obs i = true → i < j → slotPi c j < slotPi c i) →
      assocFold c obs l acc m = .ok (some (mkData c j)) := by
  intro l
  induction l with
  | nil => intro acc m _ hj; exact absurd hj (List.not_mem_nil j)
  | cons i rest ih =>
    intro acc m hsort hj hdet hm hle hfirst
    have hhead := (List.pairwise_cons.mp hsort).1
    have hsort' := (List.pairwise_cons.mp hsort).2
    rcases List.mem_cons.mp hj with hji | hjr
    · subst hji
      rw [assocFold_cons, if_pos hobs,
        if_neg (hdet j (List.mem_cons_self j rest) hobs), if_pos hm]
      exact assocFold_stable c obs rest _ _
        (fun k hk => hdet k (List.mem_cons_of_mem j hk))
        (fun k hk hko => not_lt.mpr (hle k (List.mem_cons_of_mem j hk) hko))
    · have hij : i < j := hhead j hjr
      by_cases hobsi : obs i = true
      · rw [assocFold_cons, if_pos hobsi,
          if_neg (hdet i (List.mem_cons_self i rest) hobsi)]
        have hlt : slotPi c j < slotPi c i :=
          hfirst i (List.mem_cons_self i rest) hobsi hij
        by_cases hcmp : slotPi c i < m
        · rw [if_pos hcmp]
          exact ih _ _ hsort' hjr (fun k hk => hdet k (List.mem_cons_of_mem i hk)) hlt
            (fun k hk => hle k (List.mem_cons_of_mem i hk))
            (fun k hk => hfirst k (List.mem_cons_of_mem i hk))
        · rw [if_neg hcmp]
          exact ih _ _ hsort' hjr (fun k hk => hdet k (List.mem_cons_of_mem i hk)) hm
            (fun k hk => hle k (List.mem_cons_of_mem i hk))
            (fun k hk => hfirst k (List.mem_cons_of_mem i hk))
      · rw [assocFold_cons, if_neg hobsi]
        exact ih _ _ hsort' hjr (fun k hk => hdet k (List.mem_cons_of_mem i hk)) hm
          (fun k hk => hle k (List.mem_cons_of_mem i hk))
          (fun k hk => hfirst k (List.mem_cons_of_mem i hk))

/-- A successful loop either keeps the incoming attributes or records the
attributes of some slot. -/
theorem assocFold_result {L : ℕ} (c : ObsCtx L) (obs : Fin (L + 1) → Bool) :
    ∀ (l : List (Fin (L + 1))) (acc res : Option (AssocData L)) (m : ℝ),
      assocFold c obs l acc m = .ok res →
      res = acc ∨ ∃ i, res = some (mkData c i) := by
  intro l
  induction l with
  | nil =>
    intro acc res m h
    rw [assocFold_nil] at h
    exact Or.inl (Except.ok.inj h).symm
  | cons i rest ih =>
    intro acc res m h
    rw [assocFold_cons] at h
    by_cases hobs : obs i = true
    · rw [if_pos hobs] at h
      by_cases hdet : (slotPsi c i).det = 0
      · rw [if_pos hdet] at h; cases h
      · rw [if_neg hdet] at h
        by_cases hcmp : slotPi c i < m
        · rw [if_pos hcmp] at h
          rcases ih _ _ _ h with h1 | h2
          · exact Or.inr ⟨i, h1⟩
          · exact Or.inr h2
        · rw [if_neg hcmp] at h; exact ih _ _ _ h
    · rw [if_neg hobs] at h; exact ih _ _ _ h

/-- If some slot of the list is observed and every observed slot's Ψ is
singular, the loop raises LinAlgError. -/
theorem assocFold_error {L : ℕ} (c : ObsCtx L) (obs : Fin (L + 1) → Bool) :
    ∀ (l : List (Fin (L + 1))) (acc : Option (AssocData L)) (m : ℝ) (j : Fin (L + 1)),
      j ∈ l → obs j = true →
      (∀ i ∈ l, obs i = true → (slotPsi c i).det = 0) →
      assocFold c obs l acc m = .error .linAlg := by
  intro l
  induction l with
  | nil => intro acc m j hj; exact absurd hj (List.not_mem_nil j)
  | cons i rest ih =>
    intro acc m j hj hobs hall
    by_cases hobsi : obs i = true
    · rw [assocFold_cons, if_pos hobsi,
        if_pos (hall i (List.mem_cons_self i rest) hobsi)]
    · rw [assocFold_cons, if_neg hobsi]
      have hji : j ≠ i := fun h => hobsi (h ▸ hobs)
      rcases List.mem_cons.mp hj with h1 | h2
      · exact absurd h1 hji
      · exact ih _ _ j h2 hobs (fun k hk => hall k (List.mem_cons_of_mem i hk))

/-- slots 1..L in strictly ascending order. -/
theorem slotList_pairwise (L : ℕ) : (slotList L).Pairwise (· < ·) :=
  List.Pairwise.sublist (List.drop_sublist 1 _) (List.pairwise_lt_finRange (L + 1))

/-- Membership in the loop index list is exactly being a nonzero slot. -/
theorem slotList_eq_map (L : ℕ) : slotList L = (List.finRange L).map Fin.succ := by
  have h1 : List.finRange (L + 1) = 0 :: (List.finRange L).map Fin.succ :=
    List.finRange_succ_eq_map L
  unfold slotList
  rw [h1, List.drop_one, List.tail_cons]

theorem mem_slotList {L : ℕ} (i : Fin (L + 1)) : i ∈ slotList L ↔ i ≠ 0 := by
  rw [slotList_eq_map, List.mem_map]
  constructor
  · rintro ⟨a, _, rfl⟩
    exact Fin.succ_ne_zero a
  · intro h
    rcases Fin.exists_succ_eq.mpr h with ⟨a, rfl⟩
    exact ⟨a, List.mem_finRange a, rfl⟩

/-! ### Helper lemmas about single updates -/

theorem pX_ne_pT (L : ℕ) : pX L ≠ pT L := by
  intro h
  have h2 := congrArg Fin.val h
  simp [pX, pT] at h2

theorem pY_ne_pT (L : ℕ) : pY L ≠ pT L := by
  intro h
  have h2 := congrArg Fin.val h
  simp [pY, pT] at h2

theorem pX_ne_pY (L : ℕ) : pX L ≠ pY L := by
  intro h
  have h2 := congrArg Fin.val h
  simp [pX, pY] at h2

theorem lX_ne_lY {L : ℕ} (i : Fin (L + 1)) : lX i ≠ lY i := by
  intro h
  have h2 := congrArg Fin.val h
  simp only [lX, lY] at h2
  omega

/-- After a non-skipped motion update the current state is the predicted one. -/
theorem lastState_motionUpdate {L : ℕ} (cfg : Config L) (st : FilterState L) (t v w : ℝ)
    (h : ¬ t - st.last_timestamp < 0.001) :
    lastState (motionUpdate cfg st t v w) = motionNewState st t v w := by
  unfold motionUpdate
  rw [if_neg h]
  exact List.getLastD_concat _ _ _

/-- The heading component of the predicted state. -/
theorem motionNewState_theta {L : ℕ} (st : FilterState L) (t v w : ℝ) :
    motionNewState st t v w (pT L) =
      (if lastState st (pT L) + w * (t - st.last_timestamp) > Real.pi then
        lastState st (pT L) + w * (t - st.last_timestamp) - 2 * Real.pi
      else if lastState st (pT L) + w * (t - st.last_timestamp) < -Real.pi then
        lastState st (pT L) + w * (t - st.last_timestamp) + 2 * Real.pi
      else lastState st (pT L) + w * (t - st.last_timestamp)) := by
  simp only [motionNewState]
  rw [Function.update_same]

/-- The non-skipped motion update's covariance field. -/
theorem sigma_motionUpdate {L : ℕ} (cfg : Config L) (st : FilterState L) (t v w : ℝ)
    (h : ¬ t - st.last_timestamp < 0.001) :
    (motionUpdate cfg st t v w).sigma =
      addPoseNoise cfg.R
        (motionG L v (t - st.last_timestamp) (lastState st (pT L)) * st.sigma *
          (motionG L v (t - st.last_timestamp) (lastState st (pT L)))ᵀ) := by
  unfold motionUpdate
  rw [if_neg h]

/-- With zero forward velocity the motion Jacobian is the identity. -/
theorem motionG_v_zero (L : ℕ) (dt th : ℝ) : motionG L 0 dt th = 1 := by
  funext p q
  unfold motionG
  split_ifs with h1 h2
  · rw [h1.1, h1.2, Matrix.one_apply_ne (pX_ne_pT L)]
    ring
  · rw [h2.1, h2.2, Matrix.one_apply_ne (pY_ne_pT L)]
    ring
  · rfl

/-! ### C5: motion events with Δt below the threshold are discarded -/

/-- C5: for every motion event whose Δt = t - last_timestamp is strictly less
than the 0.001 s skip threshold — including negative and zero Δt — the motion
update returns the filter state unchanged: state vector, covariance, history
and stamps are all untouched. -/
theorem C5_motion_skip {L : ℕ} (cfg : Config L) (st : FilterState L) (t v w : ℝ)
    (h : t - st.last_timestamp < 0.001) :
    motionUpdate cfg st t v w = st := by
  unfold motionUpdate
  rw [if_pos h]

/-- C5 witness: a concrete zero-Δt motion event is skipped. -/
theorem C5_motion_skip_witness :
    ((0 : ℝ) - stW0.last_timestamp < 0.001) ∧ motionUpdate cfgW stW0 0 5 5 = stW0 := by
  have h : (0 : ℝ) - stW0.last_timestamp < 0.001 := by
    show (0 : ℝ) - 0 < 0.001
    norm_num
  exact ⟨h, C5_motion_skip cfgW stW0 0 5 5 h⟩

/-! ### C3: heading normalization -/

/-- C3 counterexample: starting from heading 0 with w Δt = -π, the processed
motion event produces heading exactly -π, which is not in the half-open
interval (-π, π] required by the claim. -/
theorem C3_counterexample :
    lastState (motionUpdate cfgW stObs 1 0 (-Real.pi)) (pT 1) = -Real.pi ∧
    ¬ (-Real.pi < lastState (motionUpdate cfgW stObs 1 0 (-Real.pi)) (pT 1)) := by
  have hpi := Real.pi_pos
  have hns : ¬ ((1 : ℝ) - stObs.last_timestamp < 0.001) := by
    show ¬ ((1 : ℝ) - 0 < 0.001)
    norm_num
  have hth : lastState stObs (pT 1) = 0 := by
    show vObs (pT 1) = 0
    simp [vObs, pT]
  have hraw : lastState stObs (pT 1) + (-Real.pi) * ((1 : ℝ) - stObs.last_timestamp)
      = -Real.pi := by
    rw [hth]
    show (0 : ℝ) + -Real.pi * (1 - 0) = -Real.pi
    ring
  have hval : lastState (motionUpdate cfgW stObs 1 0 (-Real.pi)) (pT 1) = -Real.pi := by
    rw [lastState_motionUpdate cfgW stObs 1 0 (-Real.pi) hns, motionNewState_theta, hraw]
    rw [if_neg (by linarith), if_neg (by linarith)]
  exact ⟨hval, by rw [hval]; exact lt_irrefl _⟩

/-- C3 amended: for every processed (non-skipped) motion event whose unwrapped
heading θ + w Δt lies in [-3π, 3π], the resulting heading lies in the closed
interval [-π, π].  The code applies at most one ±2π correction, so headings
beyond ±3π stay unnormalized, and the endpoint -π is produced as is (the
half-open interval (-π, π] of the claim does not hold). -/
theorem C3_heading_wrapped {L : ℕ} (cfg : Config L) (st : FilterState L) (t v w : ℝ)
    (hskip : ¬ t - st.last_timestamp < 0.001)
    (hlo : -(3 * Real.pi) ≤ lastState st (pT L) + w * (t - st.last_timestamp))
    (hhi : lastState st (pT L) + w * (t - st.last_timestamp) ≤ 3 * Real.pi) :
    -Real.pi ≤ lastState (motionUpdate cfg st t v w) (pT L) ∧
      lastState (motionUpdate cfg st t v w) (pT L) ≤ Real.pi := by
  rw [lastState_motionUpdate cfg st t v w hskip, motionNewState_theta]
  have hpi := Real.pi_pos
  by_cases h1 : lastState st (pT L) + w * (t - st.last_timestamp) > Real.pi
  · rw [if_pos h1]
    constructor <;> linarith
  · rw [if_neg h1]
    by_cases h2 : lastState st (pT L) + w * (t - st.last_timestamp) < -Real.pi
    · rw [if_pos h2]
      constructor <;> linarith
    · rw [if_neg h2]
      constructor <;> linarith

/-- C3 witness: a concrete processed motion event with in-range unwrapped
heading lands in [-π, π]. -/
theorem C3_heading_wrapped_witness :
    (¬ ((1 : ℝ) - stObs.last_timestamp < 0.001)) ∧
    (-Real.pi ≤ lastState (motionUpdate cfgW stObs 1 0 0) (pT 1) ∧
      lastState (motionUpdate cfgW stObs 1 0 0) (pT 1) ≤ Real.pi) := by
  have hpi := Real.pi_pos
  have hns : ¬ ((1 : ℝ) - stObs.last_timestamp < 0.001) := by
    show ¬ ((1 : ℝ) - 0 < 0.001)
    norm_num
  have hraw : lastState stObs (pT 1) + 0 * ((1 : ℝ) - stObs.last_timestamp) = 0 := by
    have hth : lastState stObs (pT 1) = 0 := by
      show vObs (pT 1) = 0
      simp [vObs, pT]
    rw [hth]
    ring
  refine ⟨hns, C3_heading_wrapped cfgW stObs 1 0 0 hns ?_ ?_⟩ <;> rw [hraw] <;> linarith

/-! ### C2: covariance propagation in the motion update -/

/-- C2 counterexample: with the symmetric non-diagonal process noise cfgR.R
(whose entry R[0][1] is 1) and a stationary motion event, the off-diagonal
pose entry (0, 1) of the covariance stays 0 instead of increasing by
R[0][1] = 1, so R is not added into the entire top-left 3×3 block. -/
theorem C2_counterexample :
    (motionUpdate cfgR stW0 1 0 0).sigma (pX 1) (pY 1) = 0 ∧
    (motionUpdate cfgR stW0 1 0 0).sigma (pX 1) (pY 1) ≠
      stW0.sigma (pX 1) (pY 1) + cfgR.R 0 1 := by
  have hns : ¬ ((1 : ℝ) - stW0.last_timestamp < 0.001) := by
    show ¬ ((1 : ℝ) - 0 < 0.001)
    norm_num
  have hsig : stW0.sigma = 0 := rfl
  have hval : (motionUpdate cfgR stW0 1 0 0).sigma (pX 1) (pY 1) = 0 := by
    rw [sigma_motionUpdate cfgR stW0 1 0 0 hns]
    rw [hsig, Matrix.mul_zero, Matrix.zero_mul]
    unfold addPoseNoise
    rw [dif_neg (fun hc => pX_ne_pY 1 hc.1)]
    rfl
  refine ⟨hval, ?_⟩
  rw [hval, hsig]
  have hR : cfgR.R 0 1 = 1 := by
    show (![![(0 : ℝ), 1, 0], ![1, 0, 0], ![0, 0, 0]]) 0 1 = 1
    simp
  rw [hR]
  norm_num

/-- C2 amended: for every non-skipped motion event the new covariance is
G Σ Gᵀ with only the three diagonal entries R[0][0], R[1][1], R[2][2] of R
added to the corresponding pose diagonal entries — all other entries,
including the off-diagonal pose entries and every landmark entry, receive no
process noise; and for v = 0, w = 0 (with the current heading in [-π, π]) the
current state vector is unchanged and the covariance becomes Σ with only
those three diagonal additions. -/
theorem C2_covariance_update {L : ℕ} (cfg : Config L) (st : FilterState L) (t v w : ℝ)
    (hskip : ¬ t - st.last_timestamp < 0.001) :
    (∀ p q : Fin (dim L), ¬ (p = q ∧ p.1 < 3) →
      (motionUpdate cfg st t v w).sigma p q =
        (motionG L v (t - st.last_timestamp) (lastState st (pT L)) * st.sigma *
          (motionG L v (t - st.last_timestamp) (lastState st (pT L)))ᵀ) p q) ∧
    (∀ (p : Fin (dim L)) (h3 : p.1 < 3),
      (motionUpdate cfg st t v w).sigma p p =
        (motionG L v (t - st.last_timestamp) (lastState st (pT L)) * st.sigma *
          (motionG L v (t - st.last_timestamp) (lastState st (pT L)))ᵀ) p p +
        cfg.R ⟨p.1, h3⟩ ⟨p.1, h3⟩) ∧
    (v = 0 → w = 0 → -Real.pi ≤ lastState st (pT L) → lastState st (pT L) ≤ Real.pi →
      lastState (motionUpdate cfg st t v w) = lastState st ∧
      (motionUpdate cfg st t v w).sigma = addPoseNoise cfg.R st.sigma) := by
  refine ⟨?_, ?_, ?_⟩
  · intro p q hpq
    rw [sigma_motionUpdate cfg st t v w hskip]
    unfold addPoseNoise
    rw [dif_neg hpq]
  · intro p h3
    rw [sigma_motionUpdate cfg st t v w hskip]
    unfold addPoseNoise
    rw [dif_pos ⟨rfl, h3⟩]
  · intro hv hw hlo hhi
    subst hv
    subst hw
    constructor
    · rw [lastState_motionUpdate cfg st t 0 0 hskip]
      simp only [motionNewState]
      have hx : lastState st (pX L) + 0 * Real.cos (lastState st (pT L)) *
          (t - st.last_timestamp) = lastState st (pX L) := by ring
      have hy : lastState st (pY L) + 0 * Real.sin (lastState st (pT L)) *
          (t - st.last_timestamp) = lastState st (pY L) := by ring
      have hth : lastState st (pT L) + 0 * (t - st.last_timestamp)
          = lastState st (pT L) := by ring
      rw [hx, hy, hth, if_neg (not_lt.mpr hhi), if_neg (not_lt.mpr ?hlo2)]
      case hlo2 => linarith
      simp only [Function.update_eq_self]
    · rw [sigma_motionUpdate cfg st t 0 0 hskip, motionG_v_zero, Matrix.transpose_one,
        mul_one, one_mul]

/-- C2 witness: a concrete stationary motion event over the zero covariance. -/
theorem C2_covariance_update_witness :
    (¬ ((1 : ℝ) - stW0.last_timestamp < 0.001)) ∧
    lastState (motionUpdate cfgW stW0 1 0 0) = lastState stW0 ∧
    (motionUpdate cfgW stW0 1 0 0).sigma = addPoseNoise cfgW.R stW0.sigma := by
  have hpi := Real.pi_pos
  have hns : ¬ ((1 : ℝ) - stW0.last_timestamp < 0.001) := by
    show ¬ ((1 : ℝ) - 0 < 0.001)
    norm_num
  have hth : lastState stW0 (pT 1) = 0 := rfl
  refine ⟨hns, (C2_covariance_update cfgW stW0 1 0 0 hns).2.2 rfl rfl ?_ ?_⟩ <;>
    rw [hth] <;> linarith


/-! ### Structural lemmas about the measurement pipeline -/

theorem dataAssociation_not_landmark {L : ℕ} (cfg : Config L) (st : FilterState L)
    (sid r b : ℝ) (h : cfg.landmark_indexes sid = none) :
    dataAssociation cfg st sid r b = .ok st := by
  unfold dataAssociation
  rw [h]

theorem dataAssociation_some {L : ℕ} (cfg : Config L) (st : FilterState L)
    (sid r b : ℝ) (idx : Fin (L + 1)) (hm : cfg.landmark_indexes sid = some idx) :
    dataAssociation cfg st sid r b =
      (match assocFold (daCtx cfg st idx r b) (daStep1 st idx r b).observed
          (slotList L) st.assoc 1e16 with
      | Except.error e => Except.error e
      | Except.ok a => Except.ok { daStep1 st idx r b with assoc := a }) := by
  unfold dataAssociation
  rw [hm]

theorem dataAssociation_some_ok {L : ℕ} (cfg : Config L) (st : FilterState L)
    (sid r b : ℝ) (idx : Fin (L + 1)) (a : Option (AssocData L))
    (hm : cfg.landmark_indexes sid = some idx)
    (hfold : assocFold (daCtx cfg st idx r b) (daStep1 st idx r b).observed
      (slotList L) st.assoc 1e16 = .ok a) :
    dataAssociation cfg st sid r b = .ok { daStep1 st idx r b with assoc := a } := by
  rw [dataAssociation_some cfg st sid r b idx hm, hfold]

theorem dataAssociation_some_error {L : ℕ} (cfg : Config L) (st : FilterState L)
    (sid r b : ℝ) (idx : Fin (L + 1)) (e : FilterError)
    (hm : cfg.landmark_indexes sid = some idx)
    (hfold : assocFold (daCtx cfg st idx r b) (daStep1 st idx r b).observed
      (slotList L) st.assoc 1e16 = .error e) :
    dataAssociation cfg st sid r b = .error e := by
  rw [dataAssociation_some cfg st sid r b idx hm, hfold]

theorem dataAssociation_ok_inv {L : ℕ} (cfg : Config L) (st : FilterState L)
    (sid r b : ℝ) (st' : FilterState L)
    (hok : dataAssociation cfg st sid r b = .ok st') :
    (cfg.landmark_indexes sid = none ∧ st' = st) ∨
    ∃ idx a, cfg.landmark_indexes sid = some idx ∧
      assocFold (daCtx cfg st idx r b) (daStep1 st idx r b).observed
        (slotList L) st.assoc 1e16 = .ok a ∧
      st' = { daStep1 st idx r b with assoc := a } := by
  cases hm : cfg.landmark_indexes sid with
  | none =>
    rw [dataAssociation_not_landmark cfg st sid r b hm] at hok
    exact Or.inl ⟨rfl, (Except.ok.inj hok).symm⟩
  | some idx =>
    cases hfold : assocFold (daCtx cfg st idx r b) (daStep1 st idx r b).observed
        (slotList L) st.assoc 1e16 with
    | error e =>
      rw [dataAssociation_some_error cfg st sid r b idx e hm hfold] at hok
      cases hok
    | ok a =>
      rw [dataAssociation_some_ok cfg st sid r b idx a hm hfold] at hok
      exact Or.inr ⟨idx, a, rfl, hfold, (Except.ok.inj hok).symm⟩

theorem measurementUpdate_not_landmark {L : ℕ} (cfg : Config L) (st : FilterState L)
    (t sid : ℝ) (h : cfg.landmark_indexes sid = none) :
    measurementUpdate cfg st t sid = .ok st := by
  unfold measurementUpdate
  rw [h]

theorem measurementUpdate_some {L : ℕ} (cfg : Config L) (st : FilterState L)
    (t sid : ℝ) (idx : Fin (L + 1)) (hm : cfg.landmark_indexes sid = some idx) :
    measurementUpdate cfg st t sid =
      (match st.assoc with
      | none => Except.error FilterError.attrMissing
      | some a =>
        if (a.Psi).det = 0 then Except.error FilterError.linAlg
        else
          Except.ok { st with
            states := st.states ++ [lastState st + (kalmanGain st a).mulVec a.difference],
            last_timestamp := t,
            stamps := st.stamps ++ [t],
            sigma := (1 - kalmanGain st a * a.H) * st.sigma }) := by
  unfold measurementUpdate
  rw [hm]

theorem measurementUpdate_attr_missing {L : ℕ} (cfg : Config L) (st : FilterState L)
    (t sid : ℝ) (idx : Fin (L + 1)) (hm : cfg.landmark_indexes sid = some idx)
    (ha : st.assoc = none) :
    measurementUpdate cfg st t sid = .error .attrMissing := by
  rw [measurementUpdate_some cfg st t sid idx hm, ha]

theorem measurementUpdate_singular {L : ℕ} (cfg : Config L) (st : FilterState L)
    (t sid : ℝ) (idx : Fin (L + 1)) (a : AssocData L)
    (hm : cfg.landmark_indexes sid = some idx) (ha : st.assoc = some a)
    (hd : (a.Psi).det = 0) :
    measurementUpdate cfg st t sid = .error .linAlg := by
  rw [measurementUpdate_some cfg st t sid idx hm, ha]
  exact if_pos hd

theorem measurementUpdate_some_ok {L : ℕ} (cfg : Config L) (st : FilterState L)
    (t sid : ℝ) (idx : Fin (L + 1)) (a : AssocData L)
    (hm : cfg.landmark_indexes sid = some idx) (ha : st.assoc = some a)
    (hd : (a.Psi).det ≠ 0) :
    measurementUpdate cfg st t sid =
      .ok { st with
        states := st.states ++ [lastState st + (kalmanGain st a).mulVec a.difference],
        last_timestamp := t,
        stamps := st.stamps ++ [t],
        sigma := (1 - kalmanGain st a * a.H) * st.sigma } := by
  rw [measurementUpdate_some cfg st t sid idx hm, ha]
  exact if_neg hd

theorem measurementUpdate_ok_inv {L : ℕ} (cfg : Config L) (st : FilterState L)
    (t sid : ℝ) (st' : FilterState L)
    (hok : measurementUpdate cfg st t sid = .ok st') :
    (cfg.landmark_indexes sid = none ∧ st' = st) ∨
    ∃ idx a, cfg.landmark_indexes sid = some idx ∧ st.assoc = some a ∧
      (a.Psi).det ≠ 0 ∧
      st' = { st with
        states := st.states ++ [lastState st + (kalmanGain st a).mulVec a.difference],
        last_timestamp := t,
        stamps := st.stamps ++ [t],
        sigma := (1 - kalmanGain st a * a.H) * st.sigma } := by
  cases hm : cfg.landmark_indexes sid with
  | none =>
    rw [measurementUpdate_not_landmark cfg st t sid hm] at hok
    exact Or.inl ⟨rfl, (Except.ok.inj hok).symm⟩
  | some idx =>
    cases ha : st.assoc with
    | none =>
      rw [measurementUpdate_attr_missing cfg st t sid idx hm ha] at hok
      cases hok
    | some a =>
      by_cases hd : (a.Psi).det = 0
      · rw [measurementUpdate_singular cfg st t sid idx a hm ha hd] at hok
        cases hok
      · rw [measurementUpdate_some_ok cfg st t sid idx a hm ha hd] at hok
        rw [ha] at hok
        exact Or.inr ⟨idx, a, rfl, rfl, hd, (Except.ok.inj hok).symm⟩

theorem processEvent_motion {L : ℕ} (cfg : Config L) (st : FilterState L) (t v w : ℝ) :
    processEvent cfg st (.motion t v w) = .ok (motionUpdate cfg st t v w) := rfl

theorem processEvent_meas {L : ℕ} (cfg : Config L) (st : FilterState L)
    (t sid r b : ℝ) :
    processEvent cfg st (.meas t sid r b) =
      (match dataAssociation cfg st sid r b with
      | Except.error e => Except.error e
      | Except.ok st1 => measurementUpdate cfg st1 t sid) := rfl

theorem processEvent_meas_ok {L : ℕ} (cfg : Config L) (st st1 : FilterState L)
    (t sid r b : ℝ) (h : dataAssociation cfg st sid r b = .ok st1) :
    processEvent cfg st (.meas t sid r b) = measurementUpdate cfg st1 t sid := by
  rw [processEvent_meas, h]

theorem processEvent_meas_error {L : ℕ} (cfg : Config L) (st : FilterState L)
    (t sid r b : ℝ) (e : FilterError) (h : dataAssociation cfg st sid r b = .error e) :
    processEvent cfg st (.meas t sid r b) = .error e := by
  rw [processEvent_meas, h]

theorem processEvents_nil {L : ℕ} (cfg : Config L) (st : FilterState L) :
    processEvents cfg [] st = .ok st := rfl

theorem processEvents_cons {L : ℕ} (cfg : Config L) (e : Event) (rest : List Event)
    (st : FilterState L) :
    processEvents cfg (e :: rest) st =
      (match processEvent cfg st e with
      | Except.error err => Except.error err
      | Except.ok st1 => processEvents cfg rest st1) := rfl

theorem processEvents_cons_ok {L : ℕ} (cfg : Config L) (e : Event) (rest : List Event)
    (st st1 : FilterState L) (h : processEvent cfg st e = .ok st1) :
    processEvents cfg (e :: rest) st = processEvents cfg rest st1 := by
  rw [processEvents_cons, h]

theorem processEvents_cons_error {L : ℕ} (cfg : Config L) (e : Event) (rest : List Event)
    (st : FilterState L) (err : FilterError) (h : processEvent cfg st e = .error err) :
    processEvents cfg (e :: rest) st = .error err := by
  rw [processEvents_cons, h]

/-! ### C10: one timestamp per history entry, last_timestamp is the latest -/

theorem stampInv_motionUpdate {L : ℕ} (cfg : Config L) (st : FilterState L) (t v w : ℝ)
    (h : StampInv st) : StampInv (motionUpdate cfg st t v w) := by
  unfold motionUpdate
  by_cases hs : t - st.last_timestamp < 0.001
  · rw [if_pos hs]
    exact h
  · rw [if_neg hs]
    refine ⟨?_, ?_⟩
    · show (st.states ++ [motionNewState st t v w]).length = (st.stamps ++ [t]).length
      rw [List.length_append, List.length_append, h.1]
      rfl
    · exact List.getLast?_concat _

theorem stampInv_daStep1 {L : ℕ} (st : FilterState L) (idx : Fin (L + 1)) (r b : ℝ)
    (h : StampInv st) : StampInv (daStep1 st idx r b) := by
  unfold daStep1
  by_cases ho : st.observed idx
  · rw [if_pos ho]
    exact h
  · rw [if_neg ho]
    refine ⟨?_, h.2⟩
    have hne : st.stamps ≠ [] := by
      intro hnil
      have h2 := h.2
      rw [hnil, List.getLast?_nil] at h2
      exact Option.noConfusion h2
    have hpos : 0 < st.stamps.length := List.length_pos.mpr hne
    show (st.states.dropLast ++
      [Function.update (Function.update (lastState st) (lX idx) (daXe st r b))
        (lY idx) (daYe st r b)]).length = st.stamps.length
    rw [List.length_append, List.length_dropLast, h.1]
    simp only [List.length_singleton]
    omega

theorem stampInv_dataAssociation {L : ℕ} (cfg : Config L) (st : FilterState L)
    (sid r b : ℝ) (st' : FilterState L) (h : StampInv st)
    (hok : dataAssociation cfg st sid r b = .ok st') : StampInv st' := by
  rcases dataAssociation_ok_inv cfg st sid r b st' hok with ⟨_, rfl⟩ | ⟨idx, a, _, _, rfl⟩
  · exact h
  · exact stampInv_daStep1 st idx r b h

theorem stampInv_measurementUpdate {L : ℕ} (cfg : Config L) (st : FilterState L)
    (t sid : ℝ) (st' : FilterState L) (h : StampInv st)
    (hok : measurementUpdate cfg st t sid = .ok st') : StampInv st' := by
  rcases measurementUpdate_ok_inv cfg st t sid st' hok with ⟨_, rfl⟩ | ⟨idx, a, _, _, _, rfl⟩
  · exact h
  · refine ⟨?_, List.getLast?_concat _⟩
    show (st.states ++ [lastState st + (kalmanGain st a).mulVec a.difference]).length =
      (st.stamps ++ [t]).length
    rw [List.length_append, List.length_append, h.1]
    rfl

theorem stampInv_processEvent {L : ℕ} (cfg : Config L) (st : FilterState L) (e : Event)
    (st' : FilterState L) (h : StampInv st) (hok : processEvent cfg st e = .ok st') :
    StampInv st' := by
  cases e with
  | motion t v w =>
    rw [processEvent_motion] at hok
    rw [← Except.ok.inj hok]
    exact stampInv_motionUpdate cfg st t v w h
  | meas t sid r b =>
    cases hda : dataAssociation cfg st sid r b with
    | error err =>
      rw [processEvent_meas_error cfg st t sid r b err hda] at hok
      cases hok
    | ok st1 =>
      rw [processEvent_meas_ok cfg st st1 t sid r b hda] at hok
      exact stampInv_measurementUpdate cfg st1 t sid st'
        (stampInv_dataAssociation cfg st sid r b st1 h hda) hok

/-- C10: at initialization the timestamp list and the state history both have
one entry and last_timestamp is the recorded timestamp; every successfully
processed event preserves equal lengths and keeps last_timestamp equal to the
most recently recorded timestamp (so the invariant holds after every event of
a successful run); and the correction step sets last_timestamp to the
measurement's timestamp, so a subsequent motion event's Δt is measured from
the most recently applied event of either kind, not from the previous motion
event. -/
theorem C10_stamp_invariant {L : ℕ} (cfg : Config L) :
    (∀ x0 y0 th0 t0 : ℝ, StampInv (initFilter L x0 y0 th0 t0)) ∧
    (∀ (st : FilterState L) (e : Event) (st' : FilterState L),
      StampInv st → processEvent cfg st e = .ok st' → StampInv st') ∧
    (∀ (evts : List Event) (st st' : FilterState L),
      StampInv st → processEvents cfg evts st = .ok st' → StampInv st') ∧
    (∀ (st : FilterState L) (t sid : ℝ) (st' : FilterState L) (idx : Fin (L + 1)),
      cfg.landmark_indexes sid = some idx → measurementUpdate cfg st t sid = .ok st' →
      st'.last_timestamp = t) := by
  refine ⟨?_, ?_, ?_, ?_⟩
  · intro x0 y0 th0 t0
    exact ⟨rfl, rfl⟩
  · exact fun st e st' h hok => stampInv_processEvent cfg st e st' h hok
  · intro evts
    induction evts with
    | nil =>
      intro st st' h hok
      rw [processEvents_nil] at hok
      rw [← Except.ok.inj hok]
      exact h
    | cons e rest ih =>
      intro st st' h hok
      cases hev : processEvent cfg st e with
      | error err =>
        rw [processEvents_cons_error cfg e rest st err hev] at hok
        cases hok
      | ok st1 =>
        rw [processEvents_cons_ok cfg e rest st st1 hev] at hok
        exact ih st1 st' (stampInv_processEvent cfg st e st1 h hev) hok
  · intro st t sid st' idx hm hok
    rcases measurementUpdate_ok_inv cfg st t sid st' hok with ⟨hn, _⟩ | ⟨_, a, _, _, _, rfl⟩
    · rw [hm] at hn
      cases hn
    · rfl

/-- C10 witness: the invariant holds at a concrete initialization, is carried
through a concrete run, and a concrete correction sets last_timestamp to the
measurement timestamp. -/
theorem C10_stamp_invariant_witness :
    StampInv (initFilter 1 0 0 0 0) ∧
    (StampInv stA ∧ processEvents cfgW [] stA = .ok stA ∧ StampInv stA) ∧
    (cfgW.landmark_indexes 7 = some 1 ∧ measurementUpdate cfgW stA 5 7 = .ok stA2 ∧
      stA2.last_timestamp = 5) := by
  have hinv : StampInv stA := ⟨rfl, rfl⟩
  have hm : cfgW.landmark_indexes 7 = some 1 := by
    show (if (7 : ℝ) = 7 then some 1 else none) = some 1
    rw [if_pos rfl]
  have hd : ((aW).Psi).det ≠ 0 := by
    show (1 : Matrix (Fin 3) (Fin 3) ℝ).det ≠ 0
    rw [Matrix.det_one]
    norm_num
  have hmu : measurementUpdate cfgW stA 5 7 = .ok stA2 :=
    measurementUpdate_some_ok cfgW stA 5 7 1 aW hm rfl hd
  refine ⟨(C10_stamp_invariant cfgW).1 0 0 0 0, ⟨hinv, rfl, ?_⟩, hm, hmu, ?_⟩
  · exact (C10_stamp_invariant cfgW).2.2.1 [] stA stA hinv rfl
  · exact (C10_stamp_invariant cfgW).2.2.2 stA 5 7 stA2 1 hm hmu


/-! ### Lemmas about first-sight initialization and observed flags -/

theorem daStep1_observed_self {L : ℕ} (st : FilterState L) (idx : Fin (L + 1)) (r b : ℝ) :
    (daStep1 st idx r b).observed idx = true := by
  unfold daStep1
  by_cases ho : st.observed idx
  · rw [if_pos ho]
    exact ho
  · rw [if_neg ho]
    exact Function.update_same idx true st.observed

theorem daStep1_observed_mono {L : ℕ} (st : FilterState L) (idx j : Fin (L + 1)) (r b : ℝ)
    (h : st.observed j = true) : (daStep1 st idx r b).observed j = true := by
  unfold daStep1
  by_cases ho : st.observed idx
  · rw [if_pos ho]
    exact h
  · rw [if_neg ho]
    show Function.update st.observed idx true j = true
    by_cases hj : j = idx
    · rw [hj, Function.update_same]
    · rw [Function.update_noteq hj]
      exact h

theorem daStep1_lastState_not_observed {L : ℕ} (st : FilterState L) (idx : Fin (L + 1))
    (r b : ℝ) (ho : st.observed idx = false) :
    lastState (daStep1 st idx r b) =
      Function.update (Function.update (lastState st) (lX idx) (daXe st r b))
        (lY idx) (daYe st r b) := by
  unfold daStep1
  rw [if_neg (by rw [ho]; exact Bool.false_ne_true)]
  show (st.states.dropLast ++ [_]).getLastD 0 = _
  exact List.getLastD_concat _ _ _

theorem observed_motionUpdate {L : ℕ} (cfg : Config L) (st : FilterState L) (t v w : ℝ) :
    (motionUpdate cfg st t v w).observed = st.observed := by
  unfold motionUpdate
  by_cases hs : t - st.last_timestamp < 0.001
  · rw [if_pos hs]
  · rw [if_neg hs]

theorem observed_mono_processEvent {L : ℕ} (cfg : Config L) (st : FilterState L)
    (e : Event) (st' : FilterState L) (j : Fin (L + 1))
    (hok : processEvent cfg st e = .ok st') (h : st.observed j = true) :
    st'.observed j = true := by
  cases e with
  | motion t v w =>
    rw [processEvent_motion] at hok
    rw [← Except.ok.inj hok, observed_motionUpdate]
    exact h
  | meas t sid r b =>
    cases hda : dataAssociation cfg st sid r b with
    | error err =>
      rw [processEvent_meas_error cfg st t sid r b err hda] at hok
      cases hok
    | ok st1 =>
      rw [processEvent_meas_ok cfg st st1 t sid r b hda] at hok
      have h1 : st1.observed j = true := by
        rcases dataAssociation_ok_inv cfg st sid r b st1 hda with ⟨_, rfl⟩ | ⟨idx, a, _, _, rfl⟩
        · exact h
        · exact daStep1_observed_mono st idx j r b h
      rcases measurementUpdate_ok_inv cfg st1 t sid st' hok with ⟨_, rfl⟩ | ⟨idx, a, _, _, _, rfl⟩
      · exact h1
      · exact h1

/-! ### Concrete evaluation of a first-sight data association -/

theorem cfgW_map7 : cfgW.landmark_indexes 7 = some 1 := by
  show (if (7 : ℝ) = 7 then some (1 : Fin 2) else none) = some 1
  exact if_pos rfl

theorem cfgZ_map7 : cfgZ.landmark_indexes 7 = some 1 := by
  show (if (7 : ℝ) = 7 then some (1 : Fin 2) else none) = some 1
  exact if_pos rfl

theorem lastState_stW0 : lastState stW0 = 0 := rfl

theorem daXe_stW0 : daXe stW0 1 0 = 1 := by
  show lastState stW0 (pX 1) + 1 * Real.cos (0 + lastState stW0 (pT 1)) = 1
  rw [lastState_stW0]
  show (0 : ℝ) + 1 * Real.cos (0 + 0) = 1
  norm_num [Real.cos_zero]

theorem daYe_stW0 : daYe stW0 1 0 = 0 := by
  show lastState stW0 (pY 1) + 1 * Real.sin (0 + lastState stW0 (pT 1)) = 0
  rw [lastState_stW0]
  show (0 : ℝ) + 1 * Real.sin (0 + 0) = 0
  norm_num [Real.sin_zero]

theorem lastState_daStep1_stW0 :
    lastState (daStep1 stW0 1 1 0) =
      Function.update (Function.update (lastState stW0) (lX 1) (daXe stW0 1 0))
        (lY 1) (daYe stW0 1 0) :=
  daStep1_lastState_not_observed stW0 1 1 0 rfl

theorem deltaX_c0 : deltaX (daCtx cfgW stW0 1 1 0) 1 = 1 := by
  show lastState (daStep1 stW0 1 1 0) (lX 1) - lastState stW0 (pX 1) = 1
  rw [lastState_daStep1_stW0, Function.update_noteq (lX_ne_lY 1), Function.update_same,
    daXe_stW0, lastState_stW0]
  show (1 : ℝ) - 0 = 1
  norm_num

theorem deltaY_c0 : deltaY (daCtx cfgW stW0 1 1 0) 1 = 0 := by
  show lastState (daStep1 stW0 1 1 0) (lY 1) - lastState stW0 (pY 1) = 0
  rw [lastState_daStep1_stW0, Function.update_same, daYe_stW0, lastState_stW0]
  show (0 : ℝ) - 0 = 0
  norm_num

theorem qVal_c0 : qVal (daCtx cfgW stW0 1 1 0) 1 = 1 := by
  unfold qVal
  rw [deltaX_c0, deltaY_c0]
  norm_num

theorem rangeExp_c0 : rangeExp (daCtx cfgW stW0 1 1 0) 1 = 1 := by
  unfold rangeExp
  rw [qVal_c0]
  exact Real.sqrt_one

theorem bearingExp_c0 : bearingExp (daCtx cfgW stW0 1 1 0) 1 = 0 := by
  unfold bearingExp
  rw [deltaX_c0, deltaY_c0]
  show atan2 0 1 - lastState stW0 (pT 1) = 0
  rw [lastState_stW0]
  show atan2 0 1 - 0 = 0
  unfold atan2
  rw [if_pos (by norm_num : (0 : ℝ) < 1)]
  norm_num [Real.arctan_zero]

theorem slotPsi_c0 : slotPsi (daCtx cfgW stW0 1 1 0) 1 = 1 := by
  show slotH (daCtx cfgW stW0 1 1 0) 1 * stW0.sigma *
      (slotH (daCtx cfgW stW0 1 1 0) 1)ᵀ + cfgW.Q = 1
  rw [show stW0.sigma = (0 : Cov 1) from rfl, Matrix.mul_zero, Matrix.zero_mul, zero_add]
  rfl

theorem slotDiff_c0 : slotDiff (daCtx cfgW stW0 1 1 0) 1 = 0 := by
  have h : slotDiff (daCtx cfgW stW0 1 1 0) 1 =
      ![(1 : ℝ) - rangeExp (daCtx cfgW stW0 1 1 0) 1,
        (0 : ℝ) - bearingExp (daCtx cfgW stW0 1 1 0) 1, 0] := rfl
  rw [h, rangeExp_c0, bearingExp_c0]
  funext i
  fin_cases i <;> norm_num

theorem slotPi_c0 : slotPi (daCtx cfgW stW0 1 1 0) 1 = 0 := by
  unfold slotPi
  rw [slotDiff_c0]
  exact Matrix.zero_dotProduct _

theorem foldEval :
    assocFold (daCtx cfgW stW0 1 1 0) (daStep1 stW0 1 1 0).observed (slotList 1)
      stW0.assoc 1e16 = .ok (some (mkData (daCtx cfgW stW0 1 1 0) 1)) := by
  rw [show slotList 1 = [(1 : Fin 2)] from rfl]
  rw [assocFold_cons, if_pos (daStep1_observed_self stW0 1 1 0),
    if_neg (by rw [slotPsi_c0, Matrix.det_one]; norm_num),
    if_pos (by rw [slotPi_c0]; norm_num)]
  exact assocFold_nil _ _ _ _

theorem DAeval : dataAssociation cfgW stW0 7 1 0 = .ok stW1 :=
  dataAssociation_some_ok cfgW stW0 7 1 0 1
    (some (mkData (daCtx cfgW stW0 1 1 0) 1)) cfgW_map7 foldEval

/-! ### C9: history mutation discipline -/

/-- C9 amended: motion and correction updates only append to the history, and
a measurement of an unmapped subject changes nothing; but the first-sight
landmark initialization inside data_association overwrites, in place, the two
coordinates of the initialized landmark slot in the most recent — already
appended — history entry (all other components of that entry are preserved),
so the history is not append-only. -/
theorem C9_history_mutation {L : ℕ} (cfg : Config L) :
    (∀ (st : FilterState L) (t v w : ℝ),
      (motionUpdate cfg st t v w).states = st.states ∨
      (motionUpdate cfg st t v w).states = st.states ++ [motionNewState st t v w]) ∧
    (∀ (st : FilterState L) (t sid : ℝ) (st' : FilterState L),
      measurementUpdate cfg st t sid = .ok st' →
      st'.states = st.states ∨ ∃ u, st'.states = st.states ++ [u]) ∧
    (∀ (st : FilterState L) (sid r b : ℝ) (st' : FilterState L) (idx : Fin (L + 1)),
      cfg.landmark_indexes sid = some idx →
      dataAssociation cfg st sid r b = .ok st' →
      st'.states = st.states ∨
      ∃ u, st'.states = st.states.dropLast ++ [u] ∧
        ∀ k : Fin (dim L), k ≠ lX idx → k ≠ lY idx → u k = lastState st k) := by
  refine ⟨?_, ?_, ?_⟩
  · intro st t v w
    unfold motionUpdate
    by_cases hs : t - st.last_timestamp < 0.001
    · rw [if_pos hs]
      exact Or.inl rfl
    · rw [if_neg hs]
      exact Or.inr rfl
  · intro st t sid st' hok
    rcases measurementUpdate_ok_inv cfg st t sid st' hok with ⟨_, rfl⟩ | ⟨idx, a, _, _, _, rfl⟩
    · exact Or.inl rfl
    · exact Or.inr ⟨_, rfl⟩
  · intro st sid r b st' idx hm hok
    rcases dataAssociation_ok_inv cfg st sid r b st' hok with ⟨hn, _⟩ | ⟨idx2, a, hm2, _, rfl⟩
    · rw [hm] at hn
      cases hn
    · have hidx : idx2 = idx := by
        rw [hm] at hm2
        exact (Option.some.inj hm2).symm
      subst hidx
      show (daStep1 st idx2 r b).states = _ ∨ _
      unfold daStep1
      by_cases ho : st.observed idx2
      · rw [if_pos ho]
        exact Or.inl rfl
      · rw [if_neg ho]
        refine Or.inr ⟨_, rfl, ?_⟩
        intro k hk1 hk2
        rw [Function.update_noteq hk2, Function.update_noteq hk1]

/-- C9 witness: concrete instantiation of the amended statement on a
first-sight measurement. -/
theorem C9_history_mutation_witness :
    (cfgW.landmark_indexes 7 = some 1 ∧ dataAssociation cfgW stW0 7 1 0 = .ok stW1) ∧
    (stW1.states = stW0.states ∨
      ∃ u, stW1.states = stW0.states.dropLast ++ [u] ∧
        ∀ k : Fin (dim 1), k ≠ lX 1 → k ≠ lY 1 → u k = lastState stW0 k) :=
  ⟨⟨cfgW_map7, DAeval⟩,
    (C9_history_mutation cfgW).2.2 stW0 7 1 0 stW1 1 cfgW_map7 DAeval⟩

/-- C9 counterexample: a concrete first-sight measurement mutates the already
appended history entry in place — the history length stays 1 while the
entry's landmark x coordinate changes from 0 to 1, so the entry was modified,
not appended. -/
theorem C9_counterexample :
    dataAssociation cfgW stW0 7 1 0 = .ok stW1 ∧
    stW1.states.length = stW0.states.length ∧
    stW0.states.headD 0 (lX 1) = 0 ∧
    stW1.states.headD 0 (lX 1) = 1 := by
  refine ⟨DAeval, rfl, rfl, ?_⟩
  show lastState (daStep1 stW0 1 1 0) (lX 1) = 1
  rw [lastState_daStep1_stW0, Function.update_noteq (lX_ne_lY 1), Function.update_same,
    daXe_stW0]

/-! ### C6: first-sight initialization and observed-flag lifecycle -/

/-- C6: the first-ever (successfully processed) measurement of a tracked
landmark identifier sets that landmark's state estimate exactly to the
inverse-observation result x + r cos(b + θ), y + r sin(b + θ) computed from
the current pose, and sets its observed flag; and no successfully processed
event ever clears an observed flag. -/
theorem C6_first_sight {L : ℕ} (cfg : Config L) (st : FilterState L)
    (sid r b : ℝ) (idx : Fin (L + 1)) (st' : FilterState L)
    (hm : cfg.landmark_indexes sid = some idx)
    (ho : st.observed idx = false)
    (hok : dataAssociation cfg st sid r b = .ok st') :
    st'.observed idx = true ∧
    lastState st' (lX idx) =
      lastState st (pX L) + r * Real.cos (b + lastState st (pT L)) ∧
    lastState st' (lY idx) =
      lastState st (pY L) + r * Real.sin (b + lastState st (pT L)) ∧
    (∀ (st2 : FilterState L) (e : Event) (st3 : FilterState L) (j : Fin (L + 1)),
      processEvent cfg st2 e = .ok st3 → st2.observed j = true →
      st3.observed j = true) := by
  rcases dataAssociation_ok_inv cfg st sid r b st' hok with ⟨hn, _⟩ | ⟨idx2, a, hm2, _, rfl⟩
  · rw [hm] at hn
    cases hn
  · have hidx : idx2 = idx := by
      rw [hm] at hm2
      exact (Option.some.inj hm2).symm
    subst hidx
    refine ⟨daStep1_observed_self st idx2 r b, ?_, ?_,
      fun st2 e st3 j h1 h2 => observed_mono_processEvent cfg st2 e st3 j h1 h2⟩
    · show lastState (daStep1 st idx2 r b) (lX idx2) = _
      rw [daStep1_lastState_not_observed st idx2 r b ho,
        Function.update_noteq (lX_ne_lY idx2), Function.update_same]
      rfl
    · show lastState (daStep1 st idx2 r b) (lY idx2) = _
      rw [daStep1_lastState_not_observed st idx2 r b ho, Function.update_same]
      rfl

/-- C6 witness: the concrete first-sight measurement (r, b) = (1, 0) from the
origin pose initializes slot 1 at the inverse-observation result and flags it
observed. -/
theorem C6_first_sight_witness :
    (cfgW.landmark_indexes 7 = some 1 ∧ stW0.observed 1 = false ∧
      dataAssociation cfgW stW0 7 1 0 = .ok stW1) ∧
    stW1.observed 1 = true ∧
    lastState stW1 (lX 1) =
      lastState stW0 (pX 1) + 1 * Real.cos (0 + lastState stW0 (pT 1)) ∧
    lastState stW1 (lY 1) =
      lastState stW0 (pY 1) + 1 * Real.sin (0 + lastState stW0 (pT 1)) := by
  have h := C6_first_sight cfgW stW0 7 1 0 1 stW1 cfgW_map7 rfl DAeval
  exact ⟨⟨cfgW_map7, rfl, DAeval⟩, h.1, h.2.1, h.2.2.1⟩


/-! ### C4: singular innovation covariance -/

theorem mem_slotList_one {i : Fin 2} (hi : i ∈ slotList 1) : i = 1 := by
  rw [show slotList 1 = [(1 : Fin 2)] from rfl] at hi
  simpa using hi

theorem slotPsi_cZ : slotPsi (daCtx cfgZ stW0 1 1 0) 1 = 0 := by
  show slotH (daCtx cfgZ stW0 1 1 0) 1 * stW0.sigma *
      (slotH (daCtx cfgZ stW0 1 1 0) 1)ᵀ + cfgZ.Q = 0
  rw [show stW0.sigma = (0 : Cov 1) from rfl, Matrix.mul_zero, Matrix.zero_mul, zero_add]
  rfl

/-- C4 amended: when the measurement's identifier maps to a tracked slot and
every observed slot's innovation covariance Ψ (after any first-sight
initialization) is exactly singular, data_association raises the
linear-algebra inversion error; the error is not caught anywhere, so the
event loop aborts, discarding all remaining events.  There is no recoverable
DegenerateCovariance condition and the event is not "dropped with state
unchanged" (a first-sight initialization may already have mutated the
state). -/
theorem C4_singular_psi_aborts {L : ℕ} (cfg : Config L) (st : FilterState L)
    (t sid r b : ℝ) (idx : Fin (L + 1)) (rest : List Event)
    (hm : cfg.landmark_indexes sid = some idx) (h0 : idx ≠ 0)
    (hall : ∀ i ∈ slotList L, (daStep1 st idx r b).observed i = true →
      (slotPsi (daCtx cfg st idx r b) i).det = 0) :
    dataAssociation cfg st sid r b = .error .linAlg ∧
    processEvents cfg (Event.meas t sid r b :: rest) st = .error .linAlg := by
  have herr : assocFold (daCtx cfg st idx r b) (daStep1 st idx r b).observed (slotList L)
      st.assoc 1e16 = .error .linAlg :=
    assocFold_error _ _ (slotList L) st.assoc 1e16 idx ((mem_slotList idx).mpr h0)
      (daStep1_observed_self st idx r b) hall
  have hda := dataAssociation_some_error cfg st sid r b idx .linAlg hm herr
  exact ⟨hda, processEvents_cons_error cfg _ rest st .linAlg
    (processEvent_meas_error cfg st t sid r b .linAlg hda)⟩

/-- C4 witness: the concrete singular-Ψ scenario (zero covariance, zero Q)
satisfies the hypotheses, and the whole two-event run aborts. -/
theorem C4_singular_psi_aborts_witness :
    (cfgZ.landmark_indexes 7 = some 1 ∧
      (∀ i ∈ slotList 1, (daStep1 stW0 1 1 0).observed i = true →
        (slotPsi (daCtx cfgZ stW0 1 1 0) i).det = 0)) ∧
    dataAssociation cfgZ stW0 7 1 0 = .error .linAlg ∧
    processEvents cfgZ [Event.meas 1 7 1 0, Event.motion 2 0 0] stW0 =
      .error .linAlg := by
  have hall : ∀ i ∈ slotList 1, (daStep1 stW0 1 1 0).observed i = true →
      (slotPsi (daCtx cfgZ stW0 1 1 0) i).det = 0 := by
    intro i hi _
    rw [mem_slotList_one hi, slotPsi_cZ]
    exact Matrix.det_zero inferInstance
  have h := C4_singular_psi_aborts cfgZ stW0 1 7 1 0 1 [Event.motion 2 0 0] cfgZ_map7
    (by decide) hall
  exact ⟨⟨cfgZ_map7, hall⟩, h.1, h.2⟩

/-- C4 counterexample: with exactly singular Ψ the measurement raises the
inversion error and the run aborts — the second event is never processed —
rather than surfacing a recoverable condition, dropping the event and
continuing as the claim states. -/
theorem C4_counterexample :
    processEvents cfgZ [Event.meas 1 7 1 0, Event.motion 2 0 0] stW0 =
      .error .linAlg := by
  have hall : ∀ i ∈ slotList 1, (daStep1 stW0 1 1 0).observed i = true →
      (slotPsi (daCtx cfgZ stW0 1 1 0) i).det = 0 := by
    intro i hi _
    rw [mem_slotList_one hi, slotPsi_cZ]
    exact Matrix.det_zero inferInstance
  have herr : assocFold (daCtx cfgZ stW0 1 1 0) (daStep1 stW0 1 1 0).observed (slotList 1)
      stW0.assoc 1e16 = .error .linAlg :=
    assocFold_error _ _ (slotList 1) stW0.assoc 1e16 1 ((mem_slotList 1).mpr (by decide))
      (daStep1_observed_self stW0 1 1 0) hall
  have hda := dataAssociation_some_error cfgZ stW0 7 1 0 1 .linAlg cfgZ_map7 herr
  exact processEvents_cons_error cfgZ _ _ stW0 .linAlg
    (processEvent_meas_error cfgZ stW0 1 7 1 0 .linAlg hda)

/-! ### C7: symmetry of the covariance -/

theorem addPoseNoise_symm {L : ℕ} (R : Matrix (Fin 3) (Fin 3) ℝ) (S : Cov L)
    (hS : Sᵀ = S) : (addPoseNoise R S)ᵀ = addPoseNoise R S := by
  funext p q
  show addPoseNoise R S q p = addPoseNoise R S p q
  unfold addPoseNoise
  by_cases h : p = q
  · subst h
    rfl
  · rw [dif_neg (fun hc => h hc.1.symm), dif_neg (fun hc => h hc.1)]
    have h2 : Sᵀ p q = S p q := congrFun (congrFun hS p) q
    exact h2

theorem motion_sigma_symm {L : ℕ} (cfg : Config L) (st : FilterState L) (t v w : ℝ)
    (hS : (st.sigma)ᵀ = st.sigma) :
    ((motionUpdate cfg st t v w).sigma)ᵀ = (motionUpdate cfg st t v w).sigma := by
  unfold motionUpdate
  by_cases hs : t - st.last_timestamp < 0.001
  · rw [if_pos hs]
    exact hS
  · rw [if_neg hs]
    show (addPoseNoise cfg.R _)ᵀ = addPoseNoise cfg.R _
    apply addPoseNoise_symm
    rw [Matrix.transpose_mul, Matrix.transpose_mul, Matrix.transpose_transpose, hS,
      ← Matrix.mul_assoc]

theorem correction_sigma_symm {L : ℕ} (S : Cov L) (H : Matrix (Fin 3) (Fin (dim L)) ℝ)
    (P : Matrix (Fin 3) (Fin 3) ℝ) (hS : Sᵀ = S) (hP : Pᵀ = P) :
    ((1 - S * Hᵀ * P⁻¹ * H) * S)ᵀ = (1 - S * Hᵀ * P⁻¹ * H) * S := by
  have h1 : (1 - S * Hᵀ * P⁻¹ * H) * S = S - S * Hᵀ * P⁻¹ * H * S := by
    rw [sub_mul, one_mul]
  rw [h1, Matrix.transpose_sub, hS]
  congr 1
  simp only [Matrix.transpose_mul, Matrix.transpose_transpose,
    Matrix.transpose_nonsing_inv, hS, hP, Matrix.mul_assoc]

theorem slotPsi_symm {L : ℕ} (c : ObsCtx L) (i : Fin (L + 1))
    (hS : (c.sig)ᵀ = c.sig) (hQ : (c.Q)ᵀ = c.Q) : (slotPsi c i)ᵀ = slotPsi c i := by
  unfold slotPsi
  rw [Matrix.transpose_add, hQ]
  congr 1
  simp only [Matrix.transpose_mul, Matrix.transpose_transpose, hS, Matrix.mul_assoc]

theorem sigma_daStep1 {L : ℕ} (st : FilterState L) (idx : Fin (L + 1)) (r b : ℝ) :
    (daStep1 st idx r b).sigma = st.sigma := by
  unfold daStep1
  by_cases ho : st.observed idx
  · rw [if_pos ho]
  · rw [if_neg ho]

theorem symState_dataAssociation {L : ℕ} (cfg : Config L) (st : FilterState L)
    (sid r b : ℝ) (st' : FilterState L) (hQ : (cfg.Q)ᵀ = cfg.Q) (h : SymState st)
    (hok : dataAssociation cfg st sid r b = .ok st') : SymState st' := by
  rcases dataAssociation_ok_inv cfg st sid r b st' hok with ⟨_, rfl⟩ | ⟨idx, a, _, hfold, rfl⟩
  · exact h
  · refine ⟨?_, ?_⟩
    · show ((daStep1 st idx r b).sigma)ᵀ = (daStep1 st idx r b).sigma
      rw [sigma_daStep1]
      exact h.1
    · intro a2 ha2
      have ha2' : a = some a2 := ha2
      rcases assocFold_result _ _ _ _ _ _ hfold with h1 | ⟨i, h2⟩
      · refine h.2 a2 ?_
        rw [← h1]
        exact ha2'
      · have ha3 : some (mkData (daCtx cfg st idx r b) i) = some a2 := h2 ▸ ha2'
        rw [(Option.some.inj ha3).symm]
        show (slotPsi (daCtx cfg st idx r b) i)ᵀ = slotPsi (daCtx cfg st idx r b) i
        exact slotPsi_symm _ i h.1 hQ

theorem symState_measurementUpdate {L : ℕ} (cfg : Config L) (st : FilterState L)
    (t sid : ℝ) (st' : FilterState L) (h : SymState st)
    (hok : measurementUpdate cfg st t sid = .ok st') : SymState st' := by
  rcases measurementUpdate_ok_inv cfg st t sid st' hok with ⟨_, rfl⟩ | ⟨idx, a, _, ha, _, rfl⟩
  · exact h
  · refine ⟨?_, fun a2 ha2 => h.2 a2 ha2⟩
    show ((1 - kalmanGain st a * a.H) * st.sigma)ᵀ = (1 - kalmanGain st a * a.H) * st.sigma
    unfold kalmanGain
    exact correction_sigma_symm st.sigma a.H a.Psi h.1 (h.2 a ha)

theorem assoc_motionUpdate {L : ℕ} (cfg : Config L) (st : FilterState L) (t v w : ℝ) :
    (motionUpdate cfg st t v w).assoc = st.assoc := by
  unfold motionUpdate
  by_cases hs : t - st.last_timestamp < 0.001
  · rw [if_pos hs]
  · rw [if_neg hs]

theorem symState_motionUpdate {L : ℕ} (cfg : Config L) (st : FilterState L) (t v w : ℝ)
    (h : SymState st) : SymState (motionUpdate cfg st t v w) := by
  refine ⟨motion_sigma_symm cfg st t v w h.1, ?_⟩
  intro a ha
  rw [assoc_motionUpdate] at ha
  exact h.2 a ha

theorem symState_processEvent {L : ℕ} (cfg : Config L) (st : FilterState L) (e : Event)
    (st' : FilterState L) (hQ : (cfg.Q)ᵀ = cfg.Q) (h : SymState st)
    (hok : processEvent cfg st e = .ok st') : SymState st' := by
  cases e with
  | motion t v w =>
    rw [processEvent_motion] at hok
    rw [← Except.ok.inj hok]
    exact symState_motionUpdate cfg st t v w h
  | meas t sid r b =>
    cases hda : dataAssociation cfg st sid r b with
    | error err =>
      rw [processEvent_meas_error cfg st t sid r b err hda] at hok
      cases hok
    | ok st1 =>
      rw [processEvent_meas_ok cfg st st1 t sid r b hda] at hok
      exact symState_measurementUpdate cfg st1 t sid st'
        (symState_dataAssociation cfg st sid r b st1 hQ h hda) hok

/-- C7: with symmetric measurement noise Q (as any noise covariance is), and
in exact real arithmetic, the covariance stays symmetric after every
prediction step, after every successful correction step (given that the
persisted innovation covariance is symmetric, which the filter maintains),
and across arbitrary successfully processed event sequences started from any
symmetric covariance. -/
theorem C7_sigma_symmetric {L : ℕ} (cfg : Config L) (hQ : (cfg.Q)ᵀ = cfg.Q) :
    (∀ (st : FilterState L) (t v w : ℝ), (st.sigma)ᵀ = st.sigma →
      ((motionUpdate cfg st t v w).sigma)ᵀ = (motionUpdate cfg st t v w).sigma) ∧
    (∀ (st : FilterState L) (t sid : ℝ) (st' : FilterState L), SymState st →
      measurementUpdate cfg st t sid = .ok st' → (st'.sigma)ᵀ = st'.sigma) ∧
    (∀ (evts : List Event) (st st' : FilterState L), SymState st →
      processEvents cfg evts st = .ok st' → (st'.sigma)ᵀ = st'.sigma) := by
  refine ⟨fun st t v w hS => motion_sigma_symm cfg st t v w hS,
    fun st t sid st' h hok => (symState_measurementUpdate cfg st t sid st' h hok).1, ?_⟩
  have hall : ∀ (evts : List Event) (st st' : FilterState L), SymState st →
      processEvents cfg evts st = .ok st' → SymState st' := by
    intro evts
    induction evts with
    | nil =>
      intro st st' h hok
      rw [processEvents_nil] at hok
      rw [← Except.ok.inj hok]
      exact h
    | cons e rest ih =>
      intro st st' h hok
      cases hev : processEvent cfg st e with
      | error err =>
        rw [processEvents_cons_error cfg e rest st err hev] at hok
        cases hok
      | ok st1 =>
        rw [processEvents_cons_ok cfg e rest st st1 hev] at hok
        exact ih st1 st' (symState_processEvent cfg st e st1 hQ h hev) hok
  exact fun evts st st' h hok => (hall evts st st' h hok).1

/-- C7 witness: concrete symmetric configuration and state carried through a
concrete run. -/
theorem C7_sigma_symmetric_witness :
    ((cfgW.Q)ᵀ = cfgW.Q) ∧ SymState stW0 ∧
    processEvents cfgW [] stW0 = .ok stW0 ∧ ((stW0.sigma)ᵀ = stW0.sigma) := by
  have hQ : (cfgW.Q)ᵀ = cfgW.Q := by
    show (1 : Matrix (Fin 3) (Fin 3) ℝ)ᵀ = 1
    exact Matrix.transpose_one
  have hsym : SymState stW0 := by
    refine ⟨?_, fun a ha => Option.noConfusion ha⟩
    show (0 : Cov 1)ᵀ = 0
    exact Matrix.transpose_zero
  exact ⟨hQ, hsym, rfl, (C7_sigma_symmetric cfgW hQ).2.2 [] stW0 stW0 hsym rfl⟩


/-! ### Concrete evaluations around the observed landmark state stObs -/

theorem daStep1_observed_eq {L : ℕ} (st : FilterState L) (idx : Fin (L + 1)) (r b : ℝ)
    (ho : st.observed idx = true) : daStep1 st idx r b = st := by
  unfold daStep1
  rw [if_pos ho]

theorem lastState_stObs : lastState stObs = vObs := rfl

theorem vObs_lX : vObs (lX 1) = 1 := rfl

theorem vObs_lY : vObs (lY 1) = 0 := rfl

theorem vObs_pX : vObs (pX 1) = 0 := rfl

theorem vObs_pY : vObs (pY 1) = 0 := rfl

theorem vObs_pT : vObs (pT 1) = 0 := rfl

theorem deltaX_stObs (r b : ℝ) : deltaX (daCtx cfgW stObs 1 r b) 1 = 1 := by
  show lastState (daStep1 stObs 1 r b) (lX 1) - lastState stObs (pX 1) = 1
  rw [daStep1_observed_eq stObs 1 r b rfl, lastState_stObs, vObs_lX, vObs_pX]
  norm_num

theorem deltaY_stObs (r b : ℝ) : deltaY (daCtx cfgW stObs 1 r b) 1 = 0 := by
  show lastState (daStep1 stObs 1 r b) (lY 1) - lastState stObs (pY 1) = 0
  rw [daStep1_observed_eq stObs 1 r b rfl, lastState_stObs, vObs_lY, vObs_pY]
  norm_num

theorem qVal_stObs (r b : ℝ) : qVal (daCtx cfgW stObs 1 r b) 1 = 1 := by
  unfold qVal
  rw [deltaX_stObs, deltaY_stObs]
  norm_num

theorem rangeExp_stObs (r b : ℝ) : rangeExp (daCtx cfgW stObs 1 r b) 1 = 1 := by
  unfold rangeExp
  rw [qVal_stObs]
  exact Real.sqrt_one

theorem bearingExp_stObs (r b : ℝ) : bearingExp (daCtx cfgW stObs 1 r b) 1 = 0 := by
  unfold bearingExp
  rw [deltaX_stObs, deltaY_stObs]
  show atan2 0 1 - lastState stObs (pT 1) = 0
  rw [lastState_stObs, vObs_pT]
  unfold atan2
  rw [if_pos (by norm_num : (0 : ℝ) < 1)]
  norm_num [Real.arctan_zero]

theorem slotPsi_stObs (r b : ℝ) : slotPsi (daCtx cfgW stObs 1 r b) 1 = 1 := by
  show slotH (daCtx cfgW stObs 1 r b) 1 * stObs.sigma *
      (slotH (daCtx cfgW stObs 1 r b) 1)ᵀ + cfgW.Q = 1
  rw [show stObs.sigma = (0 : Cov 1) from rfl, Matrix.mul_zero, Matrix.zero_mul, zero_add]
  rfl

theorem slotDiff_stObs_matched : slotDiff (daCtx cfgW stObs 1 1 0) 1 = 0 := by
  have h : slotDiff (daCtx cfgW stObs 1 1 0) 1 =
      ![(1 : ℝ) - rangeExp (daCtx cfgW stObs 1 1 0) 1,
        (0 : ℝ) - bearingExp (daCtx cfgW stObs 1 1 0) 1, 0] := rfl
  rw [h, rangeExp_stObs, bearingExp_stObs]
  funext i
  fin_cases i <;> norm_num

theorem slotPi_stObs_matched : slotPi (daCtx cfgW stObs 1 1 0) 1 = 0 := by
  unfold slotPi
  rw [slotDiff_stObs_matched]
  exact Matrix.zero_dotProduct _

theorem slotPi_stObs_far : ¬ slotPi (daCtx cfgW stObs 1 1000000000 0) 1 < 1e16 := by
  have hdiff : slotDiff (daCtx cfgW stObs 1 1000000000 0) 1 =
      ![(1000000000 : ℝ) - 1, 0, 0] := by
    have h : slotDiff (daCtx cfgW stObs 1 1000000000 0) 1 =
        ![(1000000000 : ℝ) - rangeExp (daCtx cfgW stObs 1 1000000000 0) 1,
          (0 : ℝ) - bearingExp (daCtx cfgW stObs 1 1000000000 0) 1, 0] := rfl
    rw [h, rangeExp_stObs, bearingExp_stObs]
    funext i
    fin_cases i <;> norm_num
  unfold slotPi
  rw [hdiff, slotPsi_stObs, inv_one, Matrix.one_mulVec]
  have hdot : (![(1000000000 : ℝ) - 1, 0, 0] ⬝ᵥ ![(1000000000 : ℝ) - 1, 0, 0]) =
      ((1000000000 : ℝ) - 1) * ((1000000000 : ℝ) - 1) := by
    simp [Matrix.dotProduct, Fin.sum_univ_three]
  rw [hdot]
  norm_num

/-! ### C8: repeat noise-free measurement is a fixed point -/

/-- C8: if an already observed landmark j is measured again with the measured
range and bearing exactly equal to the expected ones for j (zero measurement
noise, no robot motion since the previous update), every Ψ scored by the loop
is invertible, and every other observed slot has strictly positive
Mahalanobis distance (which positive-definite Ψ guarantees), then slot j is
selected with innovation d = 0 and the correction step appends a state equal
to the current one: the state estimate — in particular landmark j's position
estimate — is numerically unchanged. -/
theorem C8_fixed_point {L : ℕ} (cfg : Config L) (st : FilterState L)
    (t sid r b : ℝ) (j : Fin (L + 1))
    (hm : cfg.landmark_indexes sid = some j) (hj0 : j ≠ 0)
    (hobs : st.observed j = true)
    (hr : r = rangeExp (daCtx cfg st j r b) j)
    (hb : b = bearingExp (daCtx cfg st j r b) j)
    (hdet : ∀ i ∈ slotList L, st.observed i = true →
      (slotPsi (daCtx cfg st j r b) i).det ≠ 0)
    (hpos : ∀ i ∈ slotList L, st.observed i = true → i ≠ j →
      0 < slotPi (daCtx cfg st j r b) i) :
    ∃ st' : FilterState L, processEvent cfg st (.meas t sid r b) = .ok st' ∧
      lastState st' = lastState st := by
  have heq : daStep1 st j r b = st := daStep1_observed_eq st j r b hobs
  have hd0 : slotDiff (daCtx cfg st j r b) j = 0 := by
    funext i
    fin_cases i
    · exact sub_eq_zero_of_eq hr
    · exact sub_eq_zero_of_eq hb
    · rfl
  have hPi0 : slotPi (daCtx cfg st j r b) j = 0 := by
    unfold slotPi
    rw [hd0]
    exact Matrix.zero_dotProduct _
  have hjmem : j ∈ slotList L := (mem_slotList j).mpr hj0
  have hfold : assocFold (daCtx cfg st j r b) (daStep1 st j r b).observed (slotList L)
      st.assoc 1e16 = .ok (some (mkData (daCtx cfg st j r b) j)) := by
    rw [heq]
    refine assocFold_select _ st.observed j hobs (slotList L) st.assoc 1e16
      (slotList_pairwise L) hjmem hdet ?_ ?_ ?_
    · rw [hPi0]
      norm_num
    · intro i hi hio
      by_cases hij : i = j
      · subst hij
        exact le_refl _
      · rw [hPi0]
        exact le_of_lt (hpos i hi hio hij)
    · intro i hi hio hij
      rw [hPi0]
      exact hpos i hi hio (ne_of_lt hij)
  have hda : dataAssociation cfg st sid r b =
      .ok { st with assoc := some (mkData (daCtx cfg st j r b) j) } := by
    have h1 := dataAssociation_some_ok cfg st sid r b j
      (some (mkData (daCtx cfg st j r b) j)) hm hfold
    rw [heq] at h1
    exact h1
  have hdetj : ((mkData (daCtx cfg st j r b) j).Psi).det ≠ 0 := hdet j hjmem hobs
  have hmu := measurementUpdate_some_ok cfg
    { st with assoc := some (mkData (daCtx cfg st j r b) j) } t sid j
    (mkData (daCtx cfg st j r b) j) hm rfl hdetj
  refine ⟨_, (processEvent_meas_ok cfg st _ t sid r b hda).trans hmu, ?_⟩
  show (({ st with assoc := some (mkData (daCtx cfg st j r b) j) } : FilterState L).states ++
    [lastState { st with assoc := some (mkData (daCtx cfg st j r b) j) } +
      (kalmanGain { st with assoc := some (mkData (daCtx cfg st j r b) j) }
        (mkData (daCtx cfg st j r b) j)).mulVec
        (mkData (daCtx cfg st j r b) j).difference]).getLastD 0 = lastState st
  rw [List.getLastD_concat,
    show (mkData (daCtx cfg st j r b) j).difference = slotDiff (daCtx cfg st j r b) j from rfl,
    hd0, Matrix.mulVec_zero, add_zero]
  rfl

/-- C8 witness: the concrete repeat measurement of the observed landmark at
(1, 0) with exactly the expected range 1 and bearing 0 leaves the state
vector unchanged. -/
theorem C8_fixed_point_witness :
    (cfgW.landmark_indexes 7 = some 1 ∧ stObs.observed 1 = true ∧
      (1 : ℝ) = rangeExp (daCtx cfgW stObs 1 1 0) 1 ∧
      (0 : ℝ) = bearingExp (daCtx cfgW stObs 1 1 0) 1) ∧
    (∃ st' : FilterState 1, processEvent cfgW stObs (.meas 5 7 1 0) = .ok st' ∧
      lastState st' = lastState stObs) := by
  have hr : (1 : ℝ) = rangeExp (daCtx cfgW stObs 1 1 0) 1 := (rangeExp_stObs 1 0).symm
  have hb : (0 : ℝ) = bearingExp (daCtx cfgW stObs 1 1 0) 1 := (bearingExp_stObs 1 0).symm
  have hdet : ∀ i ∈ slotList 1, stObs.observed i = true →
      (slotPsi (daCtx cfgW stObs 1 1 0) i).det ≠ 0 := by
    intro i hi _
    rw [mem_slotList_one hi, slotPsi_stObs, Matrix.det_one]
    norm_num
  have hpos : ∀ i ∈ slotList 1, stObs.observed i = true → i ≠ 1 →
      0 < slotPi (daCtx cfgW stObs 1 1 0) i := by
    intro i hi _ hne
    exact absurd (mem_slotList_one hi) hne
  exact ⟨⟨cfgW_map7, rfl, hr, hb⟩,
    C8_fixed_point cfgW stObs 5 7 1 0 1 cfgW_map7 (by decide) rfl hr hb hdet hpos⟩

/-! ### C1: data association scores observed slots and keeps the minimum -/

/-- C1 amended: when the identifier maps to a tracked slot and the observed
slot j (of the post-initialization flags) satisfies π_j < 1e16, scores no
worse than every observed slot and strictly better than every
earlier-indexed observed slot, then data_association retains exactly slot
j's H, Ψ and d (ties go to the lowest slot index), and the measurement's
correction step is invoked on precisely that retained association.  The
claim's unconditional "the minimal-π slot is always selected" fails: the
loop's minimum starts at 1e16, so when every observed slot scores at least
1e16 nothing is selected and the stale previous attributes are kept. -/
theorem C1_association_selects_min {L : ℕ} (cfg : Config L) (st : FilterState L)
    (sid r b : ℝ) (idx j : Fin (L + 1))
    (hm : cfg.landmark_indexes sid = some idx)
    (hj : j ∈ slotList L)
    (hobsj : (daStep1 st idx r b).observed j = true)
    (hdet : ∀ i ∈ slotList L, (daStep1 st idx r b).observed i = true →
      (slotPsi (daCtx cfg st idx r b) i).det ≠ 0)
    (hjm : slotPi (daCtx cfg st idx r b) j < 1e16)
    (hle : ∀ i ∈ slotList L, (daStep1 st idx r b).observed i = true →
      slotPi (daCtx cfg st idx r b) j ≤ slotPi (daCtx cfg st idx r b) i)
    (hfirst : ∀ i ∈ slotList L, (daStep1 st idx r b).observed i = true → i < j →
      slotPi (daCtx cfg st idx r b) j < slotPi (daCtx cfg st idx r b) i) :
    dataAssociation cfg st sid r b =
      .ok { daStep1 st idx r b with
        assoc := some (mkData (daCtx cfg st idx r b) j) } ∧
    (∀ t : ℝ, processEvent cfg st (.meas t sid r b) =
      measurementUpdate cfg
        { daStep1 st idx r b with
          assoc := some (mkData (daCtx cfg st idx r b) j) } t sid) := by
  have hfold : assocFold (daCtx cfg st idx r b) (daStep1 st idx r b).observed (slotList L)
      st.assoc 1e16 = .ok (some (mkData (daCtx cfg st idx r b) j)) :=
    assocFold_select (daCtx cfg st idx r b) (daStep1 st idx r b).observed j hobsj
      (slotList L) st.assoc 1e16 (slotList_pairwise L) hj hdet hjm hle hfirst
  have hda := dataAssociation_some_ok cfg st sid r b idx
    (some (mkData (daCtx cfg st idx r b) j)) hm hfold
  exact ⟨hda, fun t => processEvent_meas_ok cfg st _ t sid r b hda⟩

/-- C1 witness: for the concrete observed landmark with a perfectly matching
measurement, the loop retains slot 1's attributes. -/
theorem C1_association_selects_min_witness :
    (cfgW.landmark_indexes 7 = some 1 ∧ (1 : Fin 2) ∈ slotList 1 ∧
      slotPi (daCtx cfgW stObs 1 1 0) 1 < 1e16) ∧
    dataAssociation cfgW stObs 7 1 0 =
      .ok { daStep1 stObs 1 1 0 with
        assoc := some (mkData (daCtx cfgW stObs 1 1 0) 1) } := by
  have hj : (1 : Fin 2) ∈ slotList 1 := (mem_slotList 1).mpr (by decide)
  have hjm : slotPi (daCtx cfgW stObs 1 1 0) 1 < 1e16 := by
    rw [slotPi_stObs_matched]
    norm_num
  have hdet : ∀ i ∈ slotList 1, (daStep1 stObs 1 1 0).observed i = true →
      (slotPsi (daCtx cfgW stObs 1 1 0) i).det ≠ 0 := by
    intro i hi _
    rw [mem_slotList_one hi, slotPsi_stObs, Matrix.det_one]
    norm_num
  have hle : ∀ i ∈ slotList 1, (daStep1 stObs 1 1 0).observed i = true →
      slotPi (daCtx cfgW stObs 1 1 0) 1 ≤ slotPi (daCtx cfgW stObs 1 1 0) i := by
    intro i hi _
    rw [mem_slotList_one hi]
  have hfirst : ∀ i ∈ slotList 1, (daStep1 stObs 1 1 0).observed i = true →
      i < 1 → slotPi (daCtx cfgW stObs 1 1 0) 1 < slotPi (daCtx cfgW stObs 1 1 0) i := by
    intro i hi _ hlt
    rw [mem_slotList_one hi] at hlt
    exact absurd hlt (lt_irrefl 1)
  exact ⟨⟨cfgW_map7, hj, hjm⟩,
    (C1_association_selects_min cfgW stObs 7 1 0 1 1 cfgW_map7 hj
      (daStep1_observed_self stObs 1 1 0) hdet hjm hle hfirst).1⟩

/-- C1 counterexample: landmark slot 1 is observed and is scored for this
measurement, yet its Mahalanobis distance is at least the loop's initial
bound 1e16, so data_association selects nothing: the filter state is
returned with its stale association attributes (none) instead of retaining
the minimal-π slot's H, Ψ and d as the claim states. -/
theorem C1_counterexample :
    stObs.observed 1 = true ∧
    dataAssociation cfgW stObs 7 1000000000 0 = .ok stObs ∧
    stObs.assoc = none := by
  have hds : daStep1 stObs 1 (1000000000 : ℝ) 0 = stObs :=
    daStep1_observed_eq stObs 1 1000000000 0 rfl
  have hfold : assocFold (daCtx cfgW stObs 1 1000000000 0)
      (daStep1 stObs 1 1000000000 0).observed (slotList 1) stObs.assoc 1e16 =
      .ok none := by
    rw [show slotList 1 = [(1 : Fin 2)] from rfl, assocFold_cons,
      if_pos (daStep1_observed_self stObs 1 1000000000 0),
      if_neg (by rw [slotPsi_stObs, Matrix.det_one]; norm_num),
      if_neg slotPi_stObs_far]
    exact assocFold_nil _ _ _ _
  have hda := dataAssociation_some_ok cfgW stObs 7 1000000000 0 1 none cfgW_map7 hfold
  refine ⟨rfl, ?_, rfl⟩
  rw [hda, hds]
  rfl

end EKFSLAM
